import Mathlib

/-!
Verification of zenreach/redirector

A shallow embedding of package `httpd` (`redirect.go`, `mux.go`, `status.go`)
together with the parts of the Go standard library the handlers call.

Conventions of the embedding.

* A Go `string` is a sequence of bytes.  It is embedded as a Lean `String`
  whose characters stand for the bytes, so `len s` is `s.data.length` and the
  slice `s[i:j]` is `(s.data.take j).drop i`.
* A handler is a function from the response writer and the request to the
  response writer after the call.  The response writer follows
  `httptest.ResponseRecorder`: the first `WriteHeader` fixes the status code,
  later ones are ignored, `Write` appends to the body.
* `r.URL` is never nil for a request delivered by `net/http` or built by
  `http.NewRequest`; it is embedded as a plain `URL` value.
* The functions of the standard library that the handlers reach are embedded
  with them: `net.SplitHostPort`, `net.JoinHostPort`, `net.ParseIP`,
  `(*URL).String` with its escaping, `http.Redirect` with `path.Clean`,
  `http.Error`, and the string encoding of `encoding/json`.  Of `url.Parse`
  the embedding keeps what `http.Redirect` asks of it, whether the text parses
  with neither scheme nor host (`parsesRelative`); `strings.ToLower` is exact
  for ASCII text.
-/

namespace Redirector

/-! ## Package `strings` -/

/-- Go `len(s)`. -/
def len (s : String) : Nat := s.data.length

/-- Go slice expression `s[:n]`, for `n ≤ len s`. -/
def sliceTo (s : String) (n : Nat) : String := ⟨s.data.take n⟩

/-- Go slice expression `s[n:]`, for `n ≤ len s`. -/
def sliceFrom (s : String) (n : Nat) : String := ⟨s.data.drop n⟩

/-- Lower-casing of one byte: `A`..`Z` is mapped to `a`..`z`. -/
def toLowerByte (c : Char) : Char :=
  if 65 ≤ c.toNat ∧ c.toNat ≤ 90 then Char.ofNat (c.toNat + 32) else c

/-- Go `strings.ToLower`, which is exact here for a text of ASCII bytes.  The
bytes of a non-ASCII rune, which Go maps through the Unicode tables (and
replaces by U+FFFD where they are no valid UTF-8), are left as they are: no
rune lower-cases to one of the letters of `https`, none disappears, and the
result is empty only for the empty text. -/
def ToLower (s : String) : String := ⟨s.data.map toLowerByte⟩

/-- Go `strings.HasPrefix`. -/
def HasPrefix (s pfx : String) : Bool := pfx.data.isPrefixOf s.data

/-- Go `strings.HasSuffix`. -/
def HasSuffix (s sfx : String) : Bool := sfx.data.isSuffixOf s.data

/-- Go `strings.TrimLeft(s, cutset)`, for an ASCII cutset. -/
def TrimLeft (s cutset : String) : String :=
  ⟨s.data.dropWhile (fun c => cutset.data.contains c)⟩

/-- Go `strings.TrimRight(s, cutset)`, for an ASCII cutset. -/
def TrimRight (s cutset : String) : String :=
  ⟨(s.data.reverse.dropWhile (fun c => cutset.data.contains c)).reverse⟩

/-- Go `strings.Trim(s, cutset)`: all leading and trailing bytes contained in
`cutset` are removed. -/
def Trim (s cutset : String) : String := TrimLeft (TrimRight s cutset) cutset

/-- Go `strings.IndexByte` on the bytes of a string; `none` stands for `-1`. -/
def indexByte : List Char → Char → Option Nat
  | [], _ => none
  | x :: xs, c => if x = c then some 0 else (indexByte xs c).map (· + 1)

/-- Go `strings.LastIndexByte` on the bytes of a string; `none` stands for
`-1`. -/
def lastIndexByte : List Char → Char → Option Nat
  | [], _ => none
  | x :: xs, c =>
    match lastIndexByte xs c with
    | some i => some (i + 1)
    | none => if x = c then some 0 else none

/-! ## Package `net` -/

/-- Result of `net.SplitHostPort`: host and port, or the text of the
`AddrError`. -/
abbrev SplitResult := Except String (String × String)

deriving instance DecidableEq for Except

/-- The two trailing checks of `net.SplitHostPort` (no `[` from index `j` on,
no `]` from index `k` on) and its successful return; `i` is the index of the
last colon. -/
def splitHostPortTail (hostport : List Char) (i j k : Nat) (host : List Char) :
    SplitResult :=
  if (indexByte (hostport.drop j) '[').isSome then
    .error "unexpected '[' in address"
  else if (indexByte (hostport.drop k) ']').isSome then
    .error "unexpected ']' in address"
  else
    .ok (⟨host⟩, ⟨hostport.drop (i + 1)⟩)

/-- Go `net.SplitHostPort`. -/
def SplitHostPort (hostport : String) : SplitResult :=
  let hp := hostport.data
  -- The port starts after the last colon.
  match lastIndexByte hp ':' with
  | none => .error "missing port in address"
  | some i =>
    if hp.head? = some '[' then
      -- Expect the first ']' just before the last ':'.
      match indexByte hp ']' with
      | none => .error "missing ']' in address"
      | some e =>
        if e + 1 = hp.length then
          .error "missing port in address"
        else if e + 1 = i then
          splitHostPortTail hp i 1 (e + 1) ((hp.take e).drop 1)
        else if hp.get? (e + 1) = some ':' then
          .error "too many colons in address"
        else
          .error "missing port in address"
    else
      let host := hp.take i
      if (indexByte host ':').isSome then
        .error "too many colons in address"
      else
        splitHostPortTail hp i 0 0 host

/-- Go `net.JoinHostPort`: a host containing a colon is taken for an IPv6
literal and enclosed in square brackets. -/
def JoinHostPort (host port : String) : String :=
  if (indexByte host.data ':').isSome then
    "[" ++ host ++ "]:" ++ port
  else
    host ++ ":" ++ port

/-- Decimal digit test `'0' <= c && c <= '9'`. -/
def isDigit (c : Char) : Bool := decide (48 ≤ c.toNat ∧ c.toNat ≤ 57)

/-- Hexadecimal digit test of `parseIPv6`: `0-9`, `a-f`, `A-F`. -/
def isHexDigit (c : Char) : Bool :=
  isDigit c || decide (97 ≤ c.toNat ∧ c.toNat ≤ 102) || decide (65 ≤ c.toNat ∧ c.toNat ≤ 70)

/-- The loop of `netip.parseIPv4Fields` over the remaining bytes.  `first`
says that the byte at hand is the first one (`i == 0`), `prevDot` that the
byte before it was a dot; `val`, `pos` and `digLen` are the variables of the Go
loop.  The result says whether the four fields were parsed. -/
def parseIPv4FieldsLoop : List Char → Bool → Bool → Nat → Nat → Nat → Bool
  | [], _, _, _, pos, _ => decide (¬ pos < 3)
  | c :: rest, first, prevDot, val, pos, digLen =>
    if isDigit c then
      if digLen = 1 ∧ val = 0 then false
      else if val * 10 + (c.toNat - 48) > 255 then false
      else parseIPv4FieldsLoop rest false false (val * 10 + (c.toNat - 48)) pos (digLen + 1)
    else if c = '.' then
      if first ∨ rest = [] ∨ prevDot then false
      else if pos = 3 then false
      else parseIPv4FieldsLoop rest false true 0 (pos + 1) 0
    else false

/-- Go `netip.parseIPv4Fields`, as a validity test. -/
def parseIPv4Fields (s : List Char) : Bool := parseIPv4FieldsLoop s true false 0 0 0

/-- The hex-group loop of `netip.parseIPv6`, as a validity test.  `i` is the
number of address bytes filled so far, `ellipsis` says whether `::` was seen,
`s` is the unparsed rest.  Each round fills at least two bytes, so `fuel = 9`
rounds cover the `for i < 16` loop.  The code after the loop (whole string
used, ellipsis expansion) is the `finish` part. -/
def parseIPv6Loop : Nat → Nat → Bool → List Char → Bool
  | 0, _, _, _ => false
  | fuel + 1, i, ellipsis, s =>
    let finish (i : Nat) (ellipsis : Bool) (s : List Char) : Bool :=
      -- Must have used entire string; a short address needs an ellipsis, a
      -- full one must not have it.
      s.isEmpty && (if i < 16 then ellipsis else !ellipsis)
    if ¬ i < 16 then finish i ellipsis s
    else
      let grp := s.takeWhile isHexDigit
      let off := grp.length
      let rest := s.drop off
      if off > 4 then false          -- each group must have 4 or less digits
      else if off = 0 then false     -- at least one digit
      else if rest.head? = some '.' then
        -- trailing IPv4
        if !ellipsis && i ≠ 12 then false
        else if i + 4 > 16 then false
        else if !parseIPv4Fields s then false
        else finish (i + 4) ellipsis []
      else
        match rest with
        | [] => finish (i + 2) ellipsis []
        | c :: rest1 =>
          if c ≠ ':' then false      -- unexpected character, want colon
          else
            match rest1 with
            | [] => false            -- colon must be followed by more characters
            | c1 :: rest2 =>
              if c1 = ':' then
                if ellipsis then false     -- multiple :: in address
                else
                  match rest2 with
                  | [] => finish (i + 2) true []
                  | _ => parseIPv6Loop fuel (i + 2) true rest2
              else parseIPv6Loop fuel (i + 2) ellipsis rest1

/-- Go `netip.parseIPv6` followed by the zone test of `net.parseIP`, as a
validity test: an address with a zone (`%`) is not an IP for `net.ParseIP`. -/
def parseIPv6 (s : List Char) : Bool :=
  if (indexByte s '%').isSome then false
  else
    match s with
    | ':' :: ':' :: rest =>
      -- leading ellipsis; might be only ellipsis
      if rest.isEmpty then true else parseIPv6Loop 9 0 true rest
    | _ => parseIPv6Loop 9 0 false s

/-- Go `netip.ParseAddr` as used by `net.ParseIP`: the first `.`, `:` or `%`
selects the parser. -/
def parseAddr : List Char → List Char → Bool
  | _, [] => false
  | s, c :: rest =>
    if c = '.' then parseIPv4Fields s
    else if c = ':' then parseIPv6 s
    else if c = '%' then false
    else parseAddr s rest

/-- Go `net.ParseIP(s) != nil`: `s` is the textual form of an IPv4 address
(dotted decimal) or of an IPv6 address without zone. -/
def ParseIP (s : String) : Bool := parseAddr s.data s.data


/-! ## Package `net/url` -/

/-- Go `url.Userinfo`. -/
structure Userinfo where
  username : String
  password : String
  passwordSet : Bool
deriving DecidableEq, Repr

/-- Go `url.URL`. -/
structure URL where
  Scheme : String
  Opaque : String
  User : Option Userinfo
  Host : String
  Path : String
  RawPath : String
  OmitHost : Bool
  ForceQuery : Bool
  RawQuery : String
  Fragment : String
  RawFragment : String
deriving DecidableEq, Repr

/-- The escaping modes of package `net/url`. -/
inductive encoding where
  | encodePath
  | encodePathSegment
  | encodeHost
  | encodeZone
  | encodeUserPassword
  | encodeQueryComponent
  | encodeFragment
deriving DecidableEq, Repr

/-- Letter test `'a' <= c && c <= 'z' || 'A' <= c && c <= 'Z'`. -/
def isLetter (c : Char) : Bool :=
  decide (97 ≤ c.toNat ∧ c.toNat ≤ 122) || decide (65 ≤ c.toNat ∧ c.toNat ≤ 90)

/-- Go `shouldEscape` of package `net/url`: whether the byte is written as
`%XX` in the given mode. -/
def shouldEscape (c : Char) (mode : encoding) : Bool :=
  -- unreserved characters (alphanum)
  if isLetter c || isDigit c then false
  -- what a host allows
  else if (mode = encoding.encodeHost ∨ mode = encoding.encodeZone) ∧
      ("!$&()*+,;=:[]<>\"".data.contains c ∨ c.toNat = 39) then false
  -- unreserved characters (mark)
  else if "-_.~".data.contains c then false
  -- reserved characters
  else if "$&+,/:;=?@".data.contains c then
    match mode with
    | encoding.encodePath => c = '?'
    | encoding.encodePathSegment => c = '/' || c = ';' || c = ',' || c = '?'
    | encoding.encodeUserPassword => c = '@' || c = '/' || c = '?' || c = ':'
    | encoding.encodeQueryComponent => true
    | encoding.encodeFragment => false
    | _ => true
  else if mode = encoding.encodeFragment ∧ "!()*".data.contains c then false
  -- everything else must be escaped
  else true

/-- Upper-case hexadecimal digit of a number below 16 (`upperhex`). -/
def upperhex (n : Nat) : Char :=
  if n < 10 then Char.ofNat (48 + n) else Char.ofNat (55 + n)

/-- Go `escape` of package `net/url`. -/
def escape (s : String) (mode : encoding) : String :=
  ⟨s.data.flatMap (fun c =>
    if shouldEscape c mode then
      if c = ' ' ∧ mode = encoding.encodeQueryComponent then ['+']
      else ['%', upperhex (c.toNat / 16 % 16), upperhex (c.toNat % 16)]
    else [c])⟩

/-- Go `unhex`. -/
def unhex (c : Char) : Nat :=
  if isDigit c then c.toNat - 48
  else if 97 ≤ c.toNat ∧ c.toNat ≤ 102 then c.toNat - 97 + 10
  else if 65 ≤ c.toNat ∧ c.toNat ≤ 70 then c.toNat - 65 + 10
  else 0

/-- The loop of Go `unescape` over the bytes; `none` is the `EscapeError` or
`InvalidHostError`. -/
def unescapeLoop (mode : encoding) : List Char → Option (List Char)
  | [] => some []
  | c :: rest =>
    if c = '%' then
      match rest with
      | a :: b :: rest2 =>
        if isHexDigit a && isHexDigit b then
          if mode = encoding.encodeHost ∧ unhex a < 8 ∧ ¬ (a = '2' ∧ b = '5') then none
          else if mode = encoding.encodeZone ∧ ¬ (a = '2' ∧ b = '5') ∧
              unhex a * 16 + unhex b ≠ 32 ∧
              shouldEscape (Char.ofNat (unhex a * 16 + unhex b)) encoding.encodeHost then none
          else (unescapeLoop mode rest2).map (fun t => Char.ofNat (unhex a * 16 + unhex b) :: t)
        else none
      | _ => none
    else if (mode = encoding.encodeHost ∨ mode = encoding.encodeZone) ∧ c.toNat < 128 ∧
        shouldEscape c encoding.encodeHost then none
    else
      (unescapeLoop mode rest).map (fun t =>
        (if c = '+' ∧ mode = encoding.encodeQueryComponent then ' ' else c) :: t)

/-- Go `unescape` of package `net/url`; `none` stands for an error. -/
def unescape (s : String) (mode : encoding) : Option String :=
  (unescapeLoop mode s.data).map (fun t => ⟨t⟩)

/-- Go `validEncoded`. -/
def validEncoded (s : String) (mode : encoding) : Bool :=
  s.data.all (fun c =>
    if "!$&()*+,;=:@[]%".data.contains c ∨ c.toNat = 39 then true
    else !shouldEscape c mode)

/-- Go `(*URL).EscapedPath`. -/
def URL.EscapedPath (u : URL) : String :=
  if u.RawPath ≠ "" ∧ validEncoded u.RawPath encoding.encodePath = true ∧
      unescape u.RawPath encoding.encodePath = some u.Path then u.RawPath
  else if u.Path = "*" then "*"
  else escape u.Path encoding.encodePath

/-- Go `(*URL).EscapedFragment`. -/
def URL.EscapedFragment (u : URL) : String :=
  if u.RawFragment ≠ "" ∧ validEncoded u.RawFragment encoding.encodeFragment = true ∧
      unescape u.RawFragment encoding.encodeFragment = some u.Fragment then u.RawFragment
  else escape u.Fragment encoding.encodeFragment

/-- Go `(*Userinfo).String`. -/
def Userinfo.String (u : Userinfo) : String :=
  if u.passwordSet then
    escape u.username encoding.encodeUserPassword ++ ":" ++
      escape u.password encoding.encodeUserPassword
  else escape u.username encoding.encodeUserPassword

/-- Go `(*URL).String`: `scheme:opaque?query#fragment` or
`scheme://userinfo@host/path?query#fragment`, with the escaping of user, host,
path and fragment. -/
def URL.String (u : URL) : String :=
  let scheme := if u.Scheme ≠ "" then u.Scheme ++ ":" else ""
  let rest :=
    if u.Opaque ≠ "" then u.Opaque
    else
      let auth :=
        if u.Scheme ≠ "" ∨ u.Host ≠ "" ∨ u.User.isSome then
          if u.OmitHost = true ∧ u.Host = "" ∧ u.User.isNone then ""
          else
            (if u.Host ≠ "" ∨ u.Path ≠ "" ∨ u.User.isSome then "//" else "") ++
              (match u.User with
               | some ui => ui.String ++ "@"
               | none => "") ++
              (if u.Host ≠ "" then escape u.Host encoding.encodeHost else "")
        else ""
      let path := u.EscapedPath
      let slash :=
        if path ≠ "" ∧ path.data.head? ≠ some '/' ∧ u.Host ≠ "" then "/" else ""
      let dot :=
        if scheme ++ auth ++ slash = "" ∧
            (indexByte (path.data.takeWhile (fun c => c ≠ '/')) ':').isSome then "./"
        else ""
      auth ++ slash ++ dot ++ path
  let query := if u.ForceQuery ∨ u.RawQuery ≠ "" then "?" ++ u.RawQuery else ""
  let fragment := if u.Fragment ≠ "" then "#" ++ u.EscapedFragment else ""
  scheme ++ rest ++ query ++ fragment

/-- Go `stringContainsCTLByte`. -/
def stringContainsCTLByte (s : List Char) : Bool :=
  s.any (fun c => decide (c.toNat < 32) || decide (c.toNat = 127))

/-- The loop of Go `getScheme`: `raw` is the whole text, `i` the index of the
byte at hand. -/
def getSchemeLoop (raw : List Char) : Nat → List Char → Except String (List Char × List Char)
  | _, [] => .ok ([], raw)
  | i, c :: rest =>
    if isLetter c then getSchemeLoop raw (i + 1) rest
    else if isDigit c || c = '+' || c = '-' || c = '.' then
      if i = 0 then .ok ([], raw) else getSchemeLoop raw (i + 1) rest
    else if c = ':' then
      if i = 0 then .error "missing protocol scheme" else .ok (raw.take i, rest)
    else .ok ([], raw)

/-- Go `getScheme`: the scheme before the first colon, if the text starts
with one, and the rest. -/
def getScheme (rawURL : List Char) : Except String (List Char × List Char) :=
  getSchemeLoop rawURL 0 rawURL

/-- Go `validUserinfo`. -/
def validUserinfo (s : List Char) : Bool :=
  s.all (fun c => isLetter c || isDigit c || "-._:~!$&()*+,;=%@".data.contains c ||
    decide (c.toNat = 39))

/-- Whether Go `parseAuthority` returns, without error, an empty host.  A
non-empty host part yields a non-empty host or an error; with an empty host
part only the user information can be rejected. -/
def parseAuthorityEmptyHost (authority : List Char) : Bool :=
  match lastIndexByte authority '@' with
  | none => authority.isEmpty
  | some i =>
    let userinfo := authority.take i
    (authority.drop (i + 1)).isEmpty && validUserinfo userinfo &&
      (if (indexByte userinfo ':').isSome then
        (unescapeLoop encoding.encodeUserPassword (userinfo.takeWhile (fun c => c ≠ ':'))).isSome
          && (unescapeLoop encoding.encodeUserPassword
            ((userinfo.dropWhile (fun c => c ≠ ':')).drop 1)).isSome
       else (unescapeLoop encoding.encodeUserPassword userinfo).isSome)

/-- Whether Go `url.Parse(rawURL)` succeeds with an empty scheme and an empty
host, the test `http.Redirect` makes for a relative reference. -/
def parsesRelative (rawURL : String) : Bool :=
  -- cut off #frag
  let u := rawURL.data.takeWhile (fun c => c ≠ '#')
  let frag := (rawURL.data.dropWhile (fun c => c ≠ '#')).drop 1
  let fragOK := frag.isEmpty || (unescapeLoop encoding.encodeFragment frag).isSome
  if stringContainsCTLByte u then false
  else if u = ['*'] then fragOK
  else
    match getScheme u with
    | .error _ => false
    | .ok (scheme, rest) =>
      if scheme ≠ [] then false
      else
        -- cut off ?query
        let rest := rest.takeWhile (fun c => c ≠ '?')
        if rest.head? ≠ some '/' ∧
            (indexByte (rest.takeWhile (fun c => c ≠ '/')) ':').isSome then
          -- first path segment in URL cannot contain colon
          false
        else if ¬ ['/', '/', '/'].isPrefixOf rest ∧ ['/', '/'].isPrefixOf rest then
          let authority := (rest.drop 2).takeWhile (fun c => c ≠ '/')
          let path := (rest.drop 2).dropWhile (fun c => c ≠ '/')
          parseAuthorityEmptyHost authority &&
            (unescapeLoop encoding.encodePath path).isSome && fragOK
        else
          (unescapeLoop encoding.encodePath rest).isSome && fragOK

/-! ## Package `path` -/

namespace path

/-- Go `path.Split`: the text up to and including the last slash, and what
follows it. -/
def Split (p : String) : String × String :=
  match lastIndexByte p.data '/' with
  | some i => (sliceTo p (i + 1), sliceFrom p (i + 1))
  | none => ("", p)

/-- The inner loop of the `..` case of `path.Clean`: from `w` the write index
moves back while it is above `dotdot` and the byte at it is not a slash. -/
def backtrack (buf : List Char) (dotdot : Nat) : Nat → Nat
  | 0 => 0
  | w + 1 =>
    if w + 1 > dotdot ∧ buf.get? (w + 1) ≠ some '/' then backtrack buf dotdot w else w + 1

/-- The loop `for r < n` of `path.Clean`.  `p` is what is left to read of the
path (`path[r:]`), `out` the bytes written so far, `dotdot` the index in `out`
where `..` must stop.  Every round reads at least one byte, so a number of
rounds equal to the length of the path is enough. -/
def cleanLoop (rooted : Bool) : Nat → List Char → List Char → Nat → List Char
  | 0, _, out, _ => out
  | fuel + 1, p, out, dotdot =>
    match p with
    | [] => out
    | c :: rest =>
      if c = '/' then
        -- empty path element
        cleanLoop rooted fuel rest out dotdot
      else if c = '.' ∧ (rest = [] ∨ rest.head? = some '/') then
        -- . element
        cleanLoop rooted fuel rest out dotdot
      else if c = '.' ∧ rest.head? = some '.' ∧
          (rest.drop 1 = [] ∨ (rest.drop 1).head? = some '/') then
        -- .. element: remove to last /
        if out.length > dotdot then
          -- can backtrack
          cleanLoop rooted fuel (rest.drop 1)
            (out.take (backtrack out dotdot (out.length - 1))) dotdot
        else if !rooted then
          -- cannot backtrack, but not rooted, so append .. element
          let out := (if out.length > 0 then out ++ ['/'] else out) ++ ['.', '.']
          cleanLoop rooted fuel (rest.drop 1) out out.length
        else cleanLoop rooted fuel (rest.drop 1) out dotdot
      else
        -- real path element: add slash if needed, copy element
        let out :=
          if (rooted && out.length != 1) || (!rooted && out.length != 0) then out ++ ['/']
          else out
        cleanLoop rooted fuel (p.dropWhile (fun b => b ≠ '/'))
          (out ++ p.takeWhile (fun b => b ≠ '/')) dotdot

/-- Go `path.Clean`. -/
def Clean (p : String) : String :=
  if p = "" then "."
  else
    let rooted : Bool := p.data.head? = some '/'
    let out :=
      if rooted then cleanLoop rooted p.data.length (p.data.drop 1) ['/'] 1
      else cleanLoop rooted p.data.length p.data [] 0
    -- Turn empty string into "."
    if out.length = 0 then "." else ⟨out⟩

end path

/-! ## Package `net/http` -/

/-- Go `http.Header`, a map from canonical header names to their values. -/
abbrev Header := List (String × List String)

/-- Go `Header.Get`: the first value of the key, `""` when there is none.  The
keys the handlers ask for are already in canonical form. -/
def Header.Get (h : Header) (key : String) : String :=
  match h.lookup key with
  | some (v :: _) => v
  | _ => ""

/-- Go `Header.Set`: the key is bound to the single value. -/
def Header.Set (h : Header) (key value : String) : Header :=
  (key, [value]) :: h.filter (fun kv => kv.1 ≠ key)

/-- Go `Header.Del`. -/
def Header.Del (h : Header) (key : String) : Header :=
  h.filter (fun kv => kv.1 ≠ key)

/-- Whether the header map has the key (`_, ok := h[key]`). -/
def Header.Has (h : Header) (key : String) : Bool := (h.lookup key).isSome

/-- The fields of Go `http.Request` the handlers read. -/
structure Request where
  Method : String
  URL : URL
  Host : String
  Header : Header
deriving DecidableEq, Repr

/-- The response writer, after `httptest.ResponseRecorder`.  `header` is the
map handed out by `w.Header()`, `Code` and `sent` are the status code and the
headers fixed by the first `WriteHeader`, `Body` is what was written. -/
structure ResponseWriter where
  header : Header
  wroteHeader : Bool
  Code : Nat
  sent : Header
  Body : String
deriving DecidableEq, Repr

/-- Go `httptest.NewRecorder()`: nothing written yet, code 200 by default. -/
def NewRecorder : ResponseWriter :=
  { header := [], wroteHeader := false, Code := 200, sent := [], Body := "" }

/-- Go `w.WriteHeader(code)`: only the first call has an effect. -/
def ResponseWriter.WriteHeader (w : ResponseWriter) (code : Nat) : ResponseWriter :=
  if w.wroteHeader then w
  else { w with wroteHeader := true, Code := code, sent := w.header }

/-- Go `w.Write(b)`: sends the header with code 200 if none was sent, then
appends to the body. -/
def ResponseWriter.Write (w : ResponseWriter) (b : String) : ResponseWriter :=
  let w1 := if w.wroteHeader then w else w.WriteHeader 200
  { w1 with Body := w1.Body ++ b }

/-- A Go `http.Handler`: the response writer after `ServeHTTP(w, r)`. -/
abbrev Handler := ResponseWriter → Request → ResponseWriter

namespace http

def StatusOK : Nat := 200
def StatusTemporaryRedirect : Nat := 307
def StatusNotFound : Nat := 404
def StatusMethodNotAllowed : Nat := 405
def StatusInternalServerError : Nat := 500
def StatusServiceUnavailable : Nat := 503

/-- Go `http.StatusText`, for the codes this package uses. -/
def StatusText (code : Nat) : String :=
  if code = 200 then "OK"
  else if code = 307 then "Temporary Redirect"
  else if code = 404 then "Not Found"
  else if code = 405 then "Method Not Allowed"
  else if code = 500 then "Internal Server Error"
  else if code = 503 then "Service Unavailable"
  else ""

/-- Go `http.Error`: the `Content-Length` header is dropped, the content type
is set to plain text, the status code is written, then the message followed by
a newline. -/
def Error (w : ResponseWriter) (error : String) (code : Nat) : ResponseWriter :=
  let h := ((w.header.Del "Content-Length").Set "Content-Type" "text/plain; charset=utf-8").Set
    "X-Content-Type-Options" "nosniff"
  (({ w with header := h } : ResponseWriter).WriteHeader code).Write (error ++ "\n")

/-- Go `http.NotFound`. -/
def NotFound (w : ResponseWriter) (_r : Request) : ResponseWriter :=
  Error w "404 page not found" StatusNotFound

/-- Lower-case hexadecimal digit of a number below 16. -/
def hexDigit (n : Nat) : Char :=
  if n < 10 then Char.ofNat (48 + n) else Char.ofNat (87 + n)

/-- Go `hexEscapeNonASCII`: every byte from 0x80 on is written `%xx`. -/
def hexEscapeNonASCII (s : String) : String :=
  ⟨s.data.flatMap (fun c =>
    if c.toNat < 128 then [c]
    else ['%', hexDigit (c.toNat / 16 % 16), hexDigit (c.toNat % 16)])⟩

/-- Go `htmlEscape` of package `net/http`. -/
def htmlEscape (s : String) : String :=
  ⟨s.data.flatMap (fun c =>
    if c = '&' then "&amp;".data
    else if c = '<' then "&lt;".data
    else if c = '>' then "&gt;".data
    else if c = '"' then "&#34;".data
    else if c.toNat = 39 then "&#39;".data
    else [c])⟩


/-- The text `url` of Go `http.Redirect` after its first block: a `url` that
`url.Parse` reads as a relative reference (no scheme, no host) is made an
absolute path, by joining it to the directory of the request path and cleaning
it with `path.Clean`, the query and a trailing slash being kept; any other
`url` is left as it is. -/
def redirectURL (r : Request) (url : String) : String :=
  if parsesRelative url then
    let oldpath := if r.URL.Path = "" then "/" else r.URL.Path
    -- no leading http://server
    let url :=
      if url = "" ∨ url.data.head? ≠ some '/' then
        -- make relative path absolute
        (path.Split oldpath).1 ++ url
      else url
    let (url, query) :=
      match indexByte url.data '?' with
      | some i => (sliceTo url i, sliceFrom url i)
      | none => (url, "")
    -- clean up but preserve trailing slash
    let trailing := HasSuffix url "/"
    let url := path.Clean url
    let url := if trailing && !HasSuffix url "/" then url ++ "/" else url
    url ++ query
  else url

/-- Go `http.Redirect`: the `url` is made absolute if it is a relative
reference, the `Location` header is set, a content type is added for GET and
HEAD, the code is written, and GET gets a short HTML body. -/
def Redirect (w : ResponseWriter) (r : Request) (url : String) (code : Nat) :
    ResponseWriter :=
  let url := redirectURL r url
  let hadCT := w.header.Has "Content-Type"
  let h := w.header.Set "Location" (hexEscapeNonASCII url)
  let h :=
    if !hadCT && (r.Method = "GET" || r.Method = "HEAD") then
      h.Set "Content-Type" "text/html; charset=utf-8"
    else h
  let w := ({ w with header := h } : ResponseWriter).WriteHeader code
  if !hadCT && r.Method = "GET" then
    w.Write ("<a href=\"" ++ htmlEscape url ++ "\">" ++ StatusText code ++ "</a>.\n" ++ "\n")
  else w

end http

/-! ## Package `unicode/utf8`, as far as `encoding/json` needs it -/

namespace utf8

/-- Go `utf8.RuneError`, the replacement rune U+FFFD. -/
def RuneError : Nat := 0xFFFD

/-- Go `utf8.DecodeRuneInString` on the bytes of a string: the first rune and
its width in bytes; an invalid or short encoding gives `(RuneError, 1)`, the
empty string `(RuneError, 0)`. -/
def DecodeRuneInString (s : List Char) : Nat × Nat :=
  match s with
  | [] => (RuneError, 0)
  | b0 :: rest =>
    let s0 := b0.toNat
    if s0 < 0x80 then (s0, 1)
    else if s0 < 0xC2 ∨ 0xF4 < s0 then (RuneError, 1)
    else
      -- width of the rune and accepted range of the second byte
      let sz := if s0 < 0xE0 then 2 else if s0 < 0xF0 then 3 else 4
      let lo := if s0 = 0xE0 then 0xA0 else if s0 = 0xF0 then 0x90 else 0x80
      let hi := if s0 = 0xED then 0x9F else if s0 = 0xF4 then 0x8F else 0xBF
      if s.length < sz then (RuneError, 1)
      else
        let s1 := (rest.getD 0 b0).toNat
        let s2 := (rest.getD 1 b0).toNat
        let s3 := (rest.getD 2 b0).toNat
        if s1 < lo ∨ hi < s1 then (RuneError, 1)
        else if sz ≤ 2 then (s0 % 32 * 64 + s1 % 64, 2)
        else if s2 < 0x80 ∨ 0xBF < s2 then (RuneError, 1)
        else if sz ≤ 3 then (s0 % 16 * 4096 + s1 % 64 * 64 + s2 % 64, 3)
        else if s3 < 0x80 ∨ 0xBF < s3 then (RuneError, 1)
        else (s0 % 8 * 262144 + s1 % 64 * 4096 + s2 % 64 * 64 + s3 % 64, 4)

end utf8

/-! ## Package `encoding/json`, for the response of the status handler -/

namespace json

/-- The six bytes `\u00xy` for a byte, with lower-case digits. -/
def unicodeEscape (c : Char) : List Char :=
  ['\\', 'u', '0', '0', http.hexDigit (c.toNat / 16 % 16), http.hexDigit (c.toNat % 16)]

/-- One ASCII byte of a JSON string as Go `encoding/json` writes it with HTML
escaping on: quote and backslash get a backslash, backspace, form feed,
newline, carriage return and tab their short form, the other control bytes and
`<`, `>`, `&` the form `\u00xy`. -/
def encodeByte (c : Char) : List Char :=
  if c = '"' then ['\\', '"']
  else if c = '\\' then ['\\', '\\']
  else if c.toNat = 8 then ['\\', 'b']
  else if c.toNat = 12 then ['\\', 'f']
  else if c = '\n' then ['\\', 'n']
  else if c = '\r' then ['\\', 'r']
  else if c = '\t' then ['\\', 't']
  else if c.toNat < 32 ∨ c = '<' ∨ c = '>' ∨ c = '&' then unicodeEscape c
  else [c]

/-- The loop of Go `appendString` of `encoding/json` over the bytes that are
left: an ASCII byte is written by `encodeByte`, a byte that starts no valid
UTF-8 sequence as the escape of U+FFFD, the runes U+2028 and U+2029 as their
escapes, any other rune as its bytes.  Every round reads at least one byte. -/
def appendStringLoop : Nat → List Char → List Char
  | 0, _ => []
  | fuel + 1, src =>
    match src with
    | [] => []
    | b :: rest =>
      if b.toNat < 128 then encodeByte b ++ appendStringLoop fuel rest
      else
        let (c, size) := utf8.DecodeRuneInString src
        if c = utf8.RuneError ∧ size = 1 then
          ['\\', 'u', 'f', 'f', 'f', 'd'] ++ appendStringLoop fuel rest
        else if c = 0x2028 ∨ c = 0x2029 then
          ['\\', 'u', '2', '0', '2', http.hexDigit (c % 16)] ++
            appendStringLoop fuel (src.drop size)
        else src.take size ++ appendStringLoop fuel (src.drop size)

/-- A Go string as a JSON string literal. -/
def encodeString (s : String) : String :=
  ⟨['"'] ++ appendStringLoop s.data.length s.data ++ ['"']⟩

/-- The values a field of the status response can hold. -/
inductive Value where
  | str (s : String)
  | arr (xs : List String)
deriving DecidableEq, Repr

/-- JSON text of a value. -/
def Value.encode : Value → String
  | .str s => encodeString s
  | .arr xs => "[" ++ ",".intercalate (xs.map encodeString) ++ "]"

/-- JSON text of an object given by its fields in order. -/
def encodeObject (fields : List (String × Value)) : String :=
  "\x7b" ++ ",".intercalate (fields.map (fun kv => encodeString kv.1 ++ ":" ++ kv.2.encode))
    ++ "\x7d"

end json

/-! ## Package `httpd`: `redirect.go` -/

/-- Go `redirectHandler`. -/
structure redirectHandler where
  upgradeSSL : Bool
  upgradeWWW : Bool
deriving DecidableEq, Repr

/-- Go `NewRedirectHandler`. -/
def NewRedirectHandler (upgradeSSL upgradeWWW : Bool) : redirectHandler :=
  { upgradeSSL := upgradeSSL, upgradeWWW := upgradeWWW }

/-- Go `copyURL`, for a non-nil URL: a copy with a copied `User`. -/
def copyURL (u : URL) : URL :=
  { u with User := u.User.map (fun user => user) }

/-- Go `isIPAddress`: `net.ParseIP(host) != nil`. -/
def isIPAddress (host : String) : Bool := ParseIP host

/-- The variable `proto` of `ServeHTTP` before the upgrades (lines 31-35): the
lower-cased `X-Forwarded-Proto` header, or the lower-cased URL scheme when
that is empty. -/
def effectiveProto (r : Request) : String :=
  let location := copyURL r.URL
  let proto := ToLower (r.Header.Get "X-Forwarded-Proto")
  if proto = "" then ToLower location.Scheme else proto

/-- The variables `host` and `port` of `ServeHTTP` after `net.SplitHostPort`
(lines 37-41): on an error the host is all of `r.Host` and the port is
empty. -/
def splitHost (r : Request) : String × String :=
  match SplitHostPort r.Host with
  | .ok (host, port) => (host, port)
  | .error _ => (r.Host, "")

/-- The variable `port` of `ServeHTTP`. -/
def requestPort (r : Request) : String := (splitHost r).2

/-- The variable `host` of `ServeHTTP` before the upgrades (lines 37-45): a
non-empty `Host` header replaces the host of the split. -/
def effectiveHost (r : Request) : String :=
  let host := (splitHost r).1
  let hostHeader := r.Header.Get "Host"
  if hostHeader ≠ "" then hostHeader else host

/-- The URL `location` that `ServeHTTP` hands to `http.Redirect` (lines
28-65), or `none` when `redirect` stays false. -/
def redirectHandler.location (h : redirectHandler) (r : Request) : Option URL :=
  let redirect := false
  let proto := effectiveProto r
  let host := effectiveHost r
  let port := requestPort r
  -- upgrade to https if enabled
  let (proto, redirect) :=
    if h.upgradeSSL && proto != "https" then ("https", true) else (proto, redirect)
  -- upgrade to www.* if enabled
  let (host, redirect) :=
    if h.upgradeWWW && !HasPrefix host "www." && !isIPAddress host then
      ("www." ++ host, true)
    else (host, redirect)
  if redirect then
    let host := if port ≠ "" then JoinHostPort host port else host
    let location := copyURL r.URL
    some { location with Scheme := proto, Host := host }
  else none

/-- Go `(*redirectHandler).ServeHTTP`. -/
def redirectHandler.ServeHTTP (h : redirectHandler) (w : ResponseWriter) (r : Request) :
    ResponseWriter :=
  match h.location r with
  | some location => http.Redirect w r location.String http.StatusTemporaryRedirect
  | none => http.NotFound w r

/-- The request a client sends when it follows a redirect to `target`, as
`http.NewRequest` builds it: the target is the URL, its host authority is
`r.Host`, there are no headers. -/
def followRedirect (r : Request) (target : URL) : Request :=
  { Method := r.Method, URL := target, Host := target.Host, Header := [] }

/-! ## Package `httpd`: `status.go` -/

/-- Go `Status`. -/
abbrev Status := String

/-- Go constant `Online`. -/
def Online : Status := "online"

/-- Go constant `Error`. -/
def Error : Status := "error"

/-- Go `Checker`: the current status and the list of errors. -/
abbrev Checker := Unit → Status × List String

/-- Go `statusHandler`; a nil checker is `none`. -/
structure statusHandler where
  version : String
  checker : Option Checker

/-- Go `NewStatusHandler`. -/
def NewStatusHandler (checker : Option Checker) (version : String) : statusHandler :=
  { version := version, checker := checker }

/-- The local type `response` of `statusHandler.ServeHTTP`. -/
structure response where
  Status : Status
  Version : String
  Errors : List String
deriving DecidableEq, Repr

/-- The fields `json.Marshal` writes for a `response`, in declaration order:
`status` always, `version` and `errors` unless empty (`omitempty`). -/
def response.fields (v : response) : List (String × json.Value) :=
  [("status", json.Value.str v.Status)]
    ++ (if v.Version = "" then [] else [("version", json.Value.str v.Version)])
    ++ (if v.Errors.isEmpty then [] else [("errors", json.Value.arr v.Errors)])

/-- Go `json.Marshal` of a `response`; it has no failing case for a struct of
strings. -/
def response.Marshal (v : response) : Except String String :=
  .ok (json.encodeObject v.fields)

/-- Go `(*statusHandler).ServeHTTP`. -/
def statusHandler.ServeHTTP (h : statusHandler) (w : ResponseWriter) (r : Request) :
    ResponseWriter :=
  let w :=
    if r.Method ≠ "GET" then
      http.Error w (http.StatusText http.StatusMethodNotAllowed) http.StatusMethodNotAllowed
    else w
  let (status, errors) :=
    match h.checker with
    | some checker => checker ()
    | none => (Online, [])
  match response.Marshal { Status := status, Version := h.version, Errors := errors } with
  | .ok bytes =>
    let w :=
      if status = Online then w.WriteHeader http.StatusOK
      else w.WriteHeader http.StatusServiceUnavailable
    w.Write bytes
  | .error _ => http.Error w "failed to encode response" http.StatusInternalServerError

/-! ## Package `httpd`: `mux.go` -/

/-- Go `statusMux`. -/
structure statusMux where
  path : String
  status : Handler
  handler : Handler

/-- Go `NewStatusMiddleware`. -/
def NewStatusMiddleware (handler : Handler) (checker : Option Checker)
    (version path : String) : statusMux :=
  { path := path,
    status := (NewStatusHandler checker version).ServeHTTP,
    handler := handler }

/-- Go slice expression `s[:n]` with its bounds check: `none` is the run-time
panic for `n > len(s)`. -/
def slicePrefix (s : String) (n : Nat) : Option String :=
  if n ≤ len s then some (sliceTo s n) else none

/-- Go `(*statusMux).ServeHTTP`; `none` stands for a run-time panic. -/
def statusMux.ServeHTTP (h : statusMux) (w : ResponseWriter) (r : Request) :
    Option ResponseWriter :=
  let pfx := Trim h.path "/"
  let path := Trim r.URL.Path "/"
  let lPrefix := len pfx
  let lPath := len path
  if lPath ≥ lPrefix then
    match slicePrefix path lPrefix with
    | none => none
    | some head =>
      if head = pfx then
        if lPath > lPrefix then some (h.handler w r)
        else some (h.status w r)
      else some (h.handler w r)
  else some (h.handler w r)

/-! ## Requests used as concrete inputs -/

/-- The request `http.NewRequest("GET", url, nil)` builds for the URL
`scheme://host path`, with the headers `Host` and `X-Forwarded-Proto` set as the
tests of the package do when the given values are non-empty. -/
def newRedirectRequest (scheme host path hostHeader proto : String) : Request :=
  { Method := "GET",
    URL := { Scheme := scheme, Opaque := "", User := none, Host := host, Path := path,
             RawPath := "", OmitHost := false, ForceQuery := false, RawQuery := "",
             Fragment := "", RawFragment := "" },
    Host := host,
    Header := (if hostHeader = "" then [] else [("Host", [hostHeader])]) ++
      (if proto = "" then [] else [("X-Forwarded-Proto", [proto])]) }

/-- The request the `net/http` server hands to a handler for the request line
`GET path HTTP/1.1` with the header `Host: host`: the URL holds the path only,
`r.Host` is the header value as sent (it is not kept in the header map), and
`proto` is the `X-Forwarded-Proto` header a proxy added, if non-empty. -/
def serverRequest (host path proto : String) : Request :=
  { Method := "GET",
    URL := { Scheme := "", Opaque := "", User := none, Host := "", Path := path,
             RawPath := "", OmitHost := false, ForceQuery := false, RawQuery := "",
             Fragment := "", RawFragment := "" },
    Host := host,
    Header := if proto = "" then [] else [("X-Forwarded-Proto", [proto])] }

/-- The request `http.NewRequest("GET", "http://example.com/a%20b?q=1#top", nil)`
builds: the path is held unescaped, the query raw, the fragment unescaped. -/
def queryRequest : Request :=
  { Method := "GET",
    URL := { Scheme := "http", Opaque := "", User := none, Host := "example.com",
             Path := "/a b", RawPath := "", OmitHost := false, ForceQuery := false,
             RawQuery := "q=1", Fragment := "top", RawFragment := "" },
    Host := "example.com",
    Header := [] }

/-- The request of the status tests: `http.NewRequest(method, url, body)`
for the URL `http://example.com/_status/`. -/
def newStatusRequest (method : String) : Request :=
  { Method := method,
    URL := { Scheme := "http", Opaque := "", User := none, Host := "example.com",
             Path := "/_status/", RawPath := "", OmitHost := false, ForceQuery := false,
             RawQuery := "", Fragment := "", RawFragment := "" },
    Host := "example.com",
    Header := [] }

/-! ## The embedded standard library on examples -/

/-- `(*URL).String` keeps a valid raw path, escapes path and fragment, and
leaves out an empty host when `OmitHost` is set. -/
theorem URL_String_examples :
    URL.String { Scheme := "https", Opaque := "", User := none, Host := "example.com", Path := "/a/b", RawPath := "/a%2Fb", OmitHost := false, ForceQuery := false, RawQuery := "", Fragment := "", RawFragment := "" } =
      "https://example.com/a%2Fb" ∧
    URL.String { Scheme := "https", Opaque := "", User := none, Host := "example.com", Path := "/a b/caf\xc3\xa9", RawPath := "", OmitHost := false, ForceQuery := false, RawQuery := "x=1", Fragment := "a b", RawFragment := "" } =
      "https://example.com/a%20b/caf%C3%A9?x=1#a%20b" ∧
    URL.String { Scheme := "https", Opaque := "", User := none, Host := "", Path := "/path", RawPath := "", OmitHost := true, ForceQuery := false, RawQuery := "", Fragment := "", RawFragment := "" } =
      "https:/path" ∧
    URL.String { Scheme := "https", Opaque := "", User := none, Host := "", Path := "/path", RawPath := "", OmitHost := false, ForceQuery := false, RawQuery := "", Fragment := "", RawFragment := "" } =
      "https:///path" ∧
    URL.String { Scheme := "", Opaque := "", User := some { username := "u@x", password := "p:w", passwordSet := true }, Host := "[fe80::1%en0]:80", Path := "a:b", RawPath := "", OmitHost := false, ForceQuery := true, RawQuery := "", Fragment := "", RawFragment := "" } =
      "//u%40x:p%3Aw@[fe80::1%25en0]:80/a:b?" ∧
    URL.String { Scheme := "", Opaque := "", User := none, Host := "", Path := "a:b/c", RawPath := "", OmitHost := false, ForceQuery := false, RawQuery := "", Fragment := "", RawFragment := "" } =
      "./a:b/c" := by
  decide

/-- `path.Clean` and `path.Split` on some paths. -/
theorem path_examples :
    path.Clean "/x://www.example.com/p" = "/x:/www.example.com/p" ∧
    path.Clean "a/../../b/./c//d/.." = "../b/c" ∧
    path.Clean "/../a/b/../../.." = "/" ∧
    path.Clean "" = "." ∧
    path.Clean "../../x/" = "../../x" ∧
    path.Split "/a/b/c" = ("/a/b/", "c") ∧
    path.Split "abc" = ("", "abc") := by
  decide

/-- What `url.Parse` reads as a relative reference. -/
theorem parsesRelative_examples :
    parsesRelative "/x://www.example.com/p" = true ∧
    parsesRelative "//www.example.com/p" = false ∧
    parsesRelative "https://www.example.com/p" = false ∧
    parsesRelative "a:b" = false ∧
    parsesRelative "1a:b" = false ∧
    parsesRelative "//user@/p" = true ∧
    parsesRelative "///a" = true ∧
    parsesRelative "/a%zz" = false ∧
    parsesRelative "" = true := by
  decide

/-- `http.Redirect` rewrites a relative reference: with `upgradeWWW` only and
the header `X-Forwarded-Proto: /x`, the rendering `/x://www.example.com/p` of
the target is sent as `/x:/www.example.com/p`; and a relative `url` is joined
to the directory of the request path. -/
theorem Redirect_relative_examples :
    ((NewRedirectHandler false true).location (serverRequest "example.com" "/p" "/x")).map
      URL.String = some "/x://www.example.com/p" ∧
    ((NewRedirectHandler false true).ServeHTTP NewRecorder
      (serverRequest "example.com" "/p" "/x")).sent.Get "Location" = "/x:/www.example.com/p" ∧
    ((NewRedirectHandler false true).ServeHTTP NewRecorder
      (serverRequest "example.com" "/p" "/x")).Body =
      "<a href=\"/x:/www.example.com/p\">Temporary Redirect</a>.\n\n" ∧
    http.redirectURL (serverRequest "example.com" "/a/b/c" "") "../x/?q=1" = "/a/x/?q=1" ∧
    http.redirectURL (serverRequest "example.com" "" "") "x" = "/x" := by
  decide

/-- The string escapes of `encoding/json`: short forms for backspace and form
feed, `\u00xy` for `<`, the escapes of U+2028 and of U+FFFD for a byte that is
no valid UTF-8, and a valid rune as its bytes. -/
theorem encodeString_examples :
    json.encodeString "a\x08\x0c\n<" = "\"a\\b\\f\\n\\u003c\"" ∧
    json.encodeString "\xe2\x80\xa8\xe2\x80\xa9" = "\"\\u2028\\u2029\"" ∧
    json.encodeString "\xff\xc3" = "\"\\ufffd\\ufffd\"" ∧
    json.encodeString "\xc3\xa9\xef\xbf\xbd\x7f" = "\"\xc3\xa9\xef\xbf\xbd\x7f\"" := by
  decide

/-! ## Auxiliary facts about the response writer -/

theorem Redirect_Code (r : Request) (url : String) (code : Nat) :
    (http.Redirect NewRecorder r url code).Code = code := by
  unfold http.Redirect
  simp only [NewRecorder, Header.Has, List.lookup, Option.isSome_none, Bool.not_false,
    Bool.true_and]
  split <;> simp [ResponseWriter.WriteHeader, ResponseWriter.Write]

theorem NotFound_Code (r : Request) : (http.NotFound NewRecorder r).Code = 404 := by
  simp [http.NotFound, http.Error, NewRecorder, ResponseWriter.WriteHeader,
    ResponseWriter.Write, http.StatusNotFound]

theorem ServeHTTP_Code (h : redirectHandler) (r : Request) :
    (h.ServeHTTP NewRecorder r).Code = if (h.location r).isSome then 307 else 404 := by
  unfold redirectHandler.ServeHTTP
  cases hl : h.location r with
  | none => simp [NotFound_Code]
  | some loc => simp [Redirect_Code, http.StatusTemporaryRedirect]

/-- The value of `location` in closed form: which upgrades apply, the scheme
and the host authority of the target. -/
theorem location_eq (h : redirectHandler) (r : Request) :
    h.location r =
      if (h.upgradeSSL = true ∧ effectiveProto r ≠ "https") ∨
          (h.upgradeWWW = true ∧ HasPrefix (effectiveHost r) "www." = false ∧
            isIPAddress (effectiveHost r) = false) then
        some { copyURL r.URL with
          Scheme := if h.upgradeSSL = true ∧ effectiveProto r ≠ "https" then "https"
            else effectiveProto r,
          Host :=
            if requestPort r ≠ "" then
              JoinHostPort
                (if h.upgradeWWW = true ∧ HasPrefix (effectiveHost r) "www." = false ∧
                    isIPAddress (effectiveHost r) = false then "www." ++ effectiveHost r
                  else effectiveHost r) (requestPort r)
            else
              (if h.upgradeWWW = true ∧ HasPrefix (effectiveHost r) "www." = false ∧
                  isIPAddress (effectiveHost r) = false then "www." ++ effectiveHost r
                else effectiveHost r) }
      else none := by
  rcases h with ⟨ssl, www⟩
  cases ssl <;> cases www <;> by_cases hp : effectiveProto r = "https" <;>
    cases hw : HasPrefix (effectiveHost r) "www." <;>
    cases hi : isIPAddress (effectiveHost r) <;>
    simp [redirectHandler.location, hp, hw, hi]

theorem location_isSome_iff (h : redirectHandler) (r : Request) :
    (h.location r).isSome = true ↔
      ((h.upgradeSSL = true ∧ effectiveProto r ≠ "https") ∨
        (h.upgradeWWW = true ∧ HasPrefix (effectiveHost r) "www." = false ∧
          isIPAddress (effectiveHost r) = false)) := by
  rw [location_eq]
  split <;> simp_all

theorem ToLower_eq_empty (s : String) : ToLower s = "" ↔ s = "" := by
  rcases s with ⟨l⟩
  cases l <;> simp [ToLower, String.ext_iff]

theorem effectiveProto_eq (r : Request) :
    effectiveProto r =
      if r.Header.Get "X-Forwarded-Proto" = "" then ToLower r.URL.Scheme
      else ToLower (r.Header.Get "X-Forwarded-Proto") := by
  unfold effectiveProto
  simp [ToLower_eq_empty, copyURL]

theorem copyURL_eq (u : URL) : copyURL u = u := by
  rcases u with ⟨a, b, c, d, e, f, g, h, i⟩
  cases c <;> rfl

theorem Redirect_sent_Location (r : Request) (url : String) (code : Nat) :
    (http.Redirect NewRecorder r url code).sent.Get "Location" =
      http.hexEscapeNonASCII (http.redirectURL r url) := by
  unfold http.Redirect
  simp only [NewRecorder, Header.Has, List.lookup, Option.isSome_none, Bool.not_false,
    Bool.true_and]
  split <;> split <;>
    simp [ResponseWriter.WriteHeader, ResponseWriter.Write, Header.Set, Header.Get, List.lookup]

theorem NotFound_sent (r : Request) :
    (http.NotFound NewRecorder r).sent =
      [("X-Content-Type-Options", ["nosniff"]), ("Content-Type", ["text/plain; charset=utf-8"])] := by
  simp [http.NotFound, http.Error, NewRecorder, ResponseWriter.WriteHeader,
    ResponseWriter.Write, Header.Set, Header.Del]

/-! ## Auxiliary facts about `net.ParseIP` -/

theorem parseIPv4Fields_head (s : List Char) (h : parseIPv4Fields s = true) :
    ∃ c rest, s = c :: rest ∧ isHexDigit c = true := by
  cases s with
  | nil => simp [parseIPv4Fields, parseIPv4FieldsLoop] at h
  | cons c rest =>
    refine ⟨c, rest, rfl, ?_⟩
    unfold parseIPv4Fields parseIPv4FieldsLoop at h
    by_cases hd : isDigit c = true
    · simp [isHexDigit, hd]
    · simp [hd] at h

theorem parseIPv6Loop_head (fuel i : Nat) (e : Bool) (s : List Char) (hi : i < 16)
    (h : parseIPv6Loop fuel i e s = true) :
    ∃ c rest, s = c :: rest ∧ isHexDigit c = true := by
  cases fuel with
  | zero => simp [parseIPv6Loop] at h
  | succ fuel =>
    cases s with
    | nil => simp [parseIPv6Loop, hi] at h
    | cons c rest =>
      refine ⟨c, rest, rfl, ?_⟩
      by_cases hc : isHexDigit c = true
      · exact hc
      · simp [parseIPv6Loop, hi, List.takeWhile, hc] at h

theorem parseIPv6_head (s : List Char) (h : parseIPv6 s = true) :
    ∃ c rest, s = c :: rest ∧ (isHexDigit c = true ∨ c = ':') := by
  unfold parseIPv6 at h
  split at h
  · simp at h
  · split at h
    · exact ⟨':', _, rfl, Or.inr rfl⟩
    · obtain ⟨c, rest, hs, hc⟩ := parseIPv6Loop_head 9 0 false s (by decide) h
      exact ⟨c, rest, hs, Or.inl hc⟩

theorem parseAddr_head (s t : List Char) (h : parseAddr s t = true) :
    ∃ c rest, s = c :: rest ∧ (isHexDigit c = true ∨ c = ':') := by
  induction t with
  | nil => simp [parseAddr] at h
  | cons c rest ih =>
    unfold parseAddr at h
    split at h
    · obtain ⟨c, rest, hs, hc⟩ := parseIPv4Fields_head s h
      exact ⟨c, rest, hs, Or.inl hc⟩
    · split at h
      · exact parseIPv6_head s h
      · split at h
        · simp at h
        · exact ih h

/-- An IP literal does not start with `www.`. -/
theorem isIPAddress_not_www (host : String) (h : isIPAddress host = true) :
    HasPrefix host "www." = false := by
  obtain ⟨c, rest, hs, hc⟩ := parseAddr_head host.data host.data h
  have hw : c ≠ 'w' := by
    rintro rfl
    rcases hc with hc | hc
    · exact absurd hc (by decide)
    · exact absurd hc (by decide)
  simp [HasPrefix, hs, List.isPrefixOf, hw.symm]

theorem JoinHostPort_not_www (host port : String) (h : isIPAddress host = true) :
    HasPrefix (JoinHostPort host port) "www." = false := by
  obtain ⟨c, rest, hs, hc⟩ := parseAddr_head host.data host.data h
  have hw : c ≠ 'w' := by
    rintro rfl
    rcases hc with hc | hc
    · exact absurd hc (by decide)
    · exact absurd hc (by decide)
  unfold JoinHostPort
  split
  · simp [HasPrefix, List.isPrefixOf]
  · simp [HasPrefix, hs, List.isPrefixOf, hw.symm]

theorem take_length_eq_iff (a b : List Char) (hle : b.length ≤ a.length) :
    (a.take b.length = b ∧ ¬ a.length > b.length) ↔ a = b := by
  constructor
  · rintro ⟨h1, h2⟩
    have hlen : a.length = b.length := by omega
    rw [← h1, ← hlen, List.take_length]
  · rintro rfl
    simp

/-! ## Auxiliary facts about `IndexByte`, `LastIndexByte` and `SplitHostPort` -/

theorem indexByte_isSome_iff (l : List Char) (c : Char) :
    (indexByte l c).isSome = true ↔ c ∈ l := by
  induction l with
  | nil => simp [indexByte]
  | cons x xs ih =>
    unfold indexByte
    by_cases hx : x = c
    · simp [hx]
    · have hx2 : ¬ c = x := fun h => hx h.symm
      simp [hx, hx2, ih]

theorem indexByte_eq_none_iff (l : List Char) (c : Char) :
    indexByte l c = none ↔ c ∉ l := by
  rw [← indexByte_isSome_iff]
  cases indexByte l c <;> simp

theorem lastIndexByte_eq_none_iff (l : List Char) (c : Char) :
    lastIndexByte l c = none ↔ c ∉ l := by
  induction l with
  | nil => simp [lastIndexByte]
  | cons x xs ih =>
    unfold lastIndexByte
    cases hl : lastIndexByte xs c with
    | none =>
      have hn := ih.mp hl
      by_cases hx : x = c
      · simp [hx]
      · have hx2 : ¬ c = x := fun h => hx h.symm
        simp [hx, hx2, hn]
    | some i =>
      have hm : c ∈ xs := by
        by_contra hcon
        rw [ih.mpr hcon] at hl
        exact absurd hl (by simp)
      simp [hm]

/-- The first occurrence splits the list. -/
theorem indexByte_eq_some (l : List Char) (c : Char) (i : Nat) (h : indexByte l c = some i) :
    l = l.take i ++ c :: l.drop (i + 1) ∧ c ∉ l.take i ∧ i < l.length := by
  induction l generalizing i with
  | nil => simp [indexByte] at h
  | cons x xs ih =>
    unfold indexByte at h
    by_cases hx : x = c
    · simp [hx] at h
      subst h
      simp [hx]
    · simp only [hx, if_false, Option.map_eq_some'] at h
      obtain ⟨j, hj, rfl⟩ := h
      obtain ⟨h1, h2, h3⟩ := ih j hj
      have hx2 : ¬ c = x := fun h => hx h.symm
      refine ⟨?_, ?_, ?_⟩
      · simp only [List.take_succ_cons, List.drop_succ_cons, List.cons_append]
        rw [← h1]
      · simp [hx2, h2]
      · simp; omega

/-- The last occurrence splits the list. -/
theorem lastIndexByte_eq_some (l : List Char) (c : Char) (i : Nat)
    (h : lastIndexByte l c = some i) :
    l = l.take i ++ c :: l.drop (i + 1) ∧ c ∉ l.drop (i + 1) ∧ i < l.length := by
  induction l generalizing i with
  | nil => simp [lastIndexByte] at h
  | cons x xs ih =>
    unfold lastIndexByte at h
    cases hl : lastIndexByte xs c with
    | none =>
      rw [hl] at h
      have hn := (lastIndexByte_eq_none_iff xs c).mp hl
      by_cases hx : x = c
      · simp [hx] at h
        subst h
        simp [hx, hn]
      · simp [hx] at h
    | some j =>
      rw [hl] at h
      simp only [Option.some.injEq] at h
      subst h
      obtain ⟨h1, h2, h3⟩ := ih j hl
      refine ⟨?_, ?_, ?_⟩
      · simp only [List.take_succ_cons, List.drop_succ_cons, List.cons_append]
        rw [← h1]
      · simpa using h2
      · simp; omega

theorem indexByte_append_cons (a b : List Char) (c : Char) (h : c ∉ a) :
    indexByte (a ++ c :: b) c = some a.length := by
  induction a with
  | nil => simp [indexByte]
  | cons x xs ih =>
    have hx : ¬ x = c := fun hxc => h (by simp [hxc])
    have hxs : c ∉ xs := fun hm => h (by simp [hm])
    simp [indexByte, hx, ih hxs]

theorem lastIndexByte_append_cons (a b : List Char) (c : Char) (h : c ∉ b) :
    lastIndexByte (a ++ c :: b) c = some a.length := by
  induction a with
  | nil =>
    simp [lastIndexByte, (lastIndexByte_eq_none_iff b c).mpr h]
  | cons x xs ih =>
    simp [lastIndexByte, ih]

/-- An authority without colon cannot be split. -/
theorem SplitHostPort_no_colon (x : String) (h : ':' ∉ x.data) :
    SplitHostPort x = .error "missing port in address" := by
  unfold SplitHostPort
  simp only [(lastIndexByte_eq_none_iff x.data ':').mpr h]

/-- Splitting `host:port`. -/
theorem SplitHostPort_join_plain (h p : List Char)
    (h1 : ':' ∉ h) (h2 : '[' ∉ h) (h3 : ']' ∉ h)
    (p1 : ':' ∉ p) (p2 : '[' ∉ p) (p3 : ']' ∉ p) :
    SplitHostPort ⟨h ++ ':' :: p⟩ = .ok (⟨h⟩, ⟨p⟩) := by
  unfold SplitHostPort
  have hhead : (h ++ ':' :: p).head? ≠ some '[' := by
    cases h with
    | nil => simp
    | cons x xs =>
      simp only [List.cons_append, List.head?_cons, ne_eq, Option.some.injEq]
      rintro rfl
      exact h2 (by simp)
  simp only [lastIndexByte_append_cons h p ':' p1, hhead, if_false, List.take_left']
  have htake : List.take h.length (h ++ ':' :: p) = h := by simp
  have hi : indexByte h ':' = none := (indexByte_eq_none_iff h ':').mpr h1
  have hb1 : indexByte (h ++ ':' :: p) '[' = none :=
    (indexByte_eq_none_iff _ _).mpr (by simp [h2, p2])
  have hb2 : indexByte (h ++ ':' :: p) ']' = none :=
    (indexByte_eq_none_iff _ _).mpr (by simp [h3, p3])
  simp [htake, hi, splitHostPortTail, hb1, hb2]

/-- Splitting `[host]:port`. -/
theorem SplitHostPort_join_bracket (h p : List Char)
    (h2 : '[' ∉ h) (h3 : ']' ∉ h)
    (p1 : ':' ∉ p) (p2 : '[' ∉ p) (p3 : ']' ∉ p) :
    SplitHostPort ⟨'[' :: (h ++ ']' :: ':' :: p)⟩ = .ok (⟨h⟩, ⟨p⟩) := by
  unfold SplitHostPort
  have hl : lastIndexByte ('[' :: (h ++ ']' :: ':' :: p)) ':' = some (h.length + 2) := by
    have := lastIndexByte_append_cons ('[' :: (h ++ [']'])) p ':' p1
    simpa using this
  have hi : indexByte ('[' :: (h ++ ']' :: ':' :: p)) ']' = some (h.length + 1) := by
    have := indexByte_append_cons ('[' :: h) (':' :: p) ']' (by simp [h3])
    simpa using this
  have hb1 : indexByte (h ++ ']' :: ':' :: p) '[' = none :=
    (indexByte_eq_none_iff _ _).mpr (by simp [h2, p2])
  have hb2 : indexByte (':' :: p) ']' = none :=
    (indexByte_eq_none_iff _ _).mpr (by simp [p3])
  simp only [hl, hi, List.head?_cons, if_true, List.length_cons, List.length_append]
  have hne : ¬ (h.length + 1 + 1 = h.length + ((p.length + 1) + 1) + 1) := by omega
  simp [hne, splitHostPortTail, hb1, hb2]

theorem splitHostPortTail_ok (hp : List Char) (i j k : Nat) (host : List Char)
    (h p : String) (hok : splitHostPortTail hp i j k host = .ok (h, p)) :
    '[' ∉ hp.drop j ∧ ']' ∉ hp.drop k ∧ h.data = host ∧ p.data = hp.drop (i + 1) := by
  unfold splitHostPortTail at hok
  split at hok
  · simp at hok
  · split at hok
    · simp at hok
    · rename_i hb1 hb2
      simp only [Except.ok.injEq, Prod.mk.injEq] at hok
      obtain ⟨rfl, rfl⟩ := hok
      refine ⟨?_, ?_, rfl, rfl⟩
      · rw [← indexByte_isSome_iff]; exact hb1
      · rw [← indexByte_isSome_iff]; exact hb2

/-- A successful split of an authority that does not start with `[`. -/
theorem SplitHostPort_ok_plain (x h p : String) (hhead : x.data.head? ≠ some '[')
    (hok : SplitHostPort x = .ok (h, p)) :
    x.data = h.data ++ ':' :: p.data ∧ ':' ∉ h.data ∧ ':' ∉ p.data ∧
      '[' ∉ x.data ∧ ']' ∉ x.data := by
  unfold SplitHostPort at hok
  simp only at hok
  split at hok
  · simp at hok
  · rename_i i hi
    obtain ⟨hx, hdrop, _⟩ := lastIndexByte_eq_some _ _ _ hi
    simp only [hhead, if_false] at hok
    split at hok
    · simp at hok
    · rename_i hcol
      obtain ⟨hb1, hb2, hh, hpp⟩ := splitHostPortTail_ok _ _ _ _ _ _ _ hok
      simp only [List.drop_zero] at hb1 hb2
      refine ⟨?_, ?_, ?_, hb1, hb2⟩
      · rw [hh, hpp]; exact hx
      · rw [hh, ← indexByte_isSome_iff]; exact hcol
      · rw [hpp]; exact hdrop

/-- A successful split of an authority that starts with `[`. -/
theorem SplitHostPort_ok_bracket (x h p : String) (hhead : x.data.head? = some '[')
    (hok : SplitHostPort x = .ok (h, p)) :
    x.data = '[' :: (h.data ++ ']' :: ':' :: p.data) ∧ '[' ∉ h.data ∧ ']' ∉ h.data ∧
      ':' ∉ p.data ∧ '[' ∉ p.data ∧ ']' ∉ p.data := by
  unfold SplitHostPort at hok
  simp only at hok
  split at hok
  · simp at hok
  · rename_i i hi
    obtain ⟨hx, hdrop, hilt⟩ := lastIndexByte_eq_some _ _ _ hi
    simp only [hhead, if_true] at hok
    split at hok
    · simp at hok
    · rename_i e he
      obtain ⟨hxe, htake, helt⟩ := indexByte_eq_some _ _ _ he
      split at hok
      · simp at hok
      · split at hok
        · rename_i hne hei
          obtain ⟨hb1, hb2, hh, hpp⟩ := splitHostPortTail_ok _ _ _ _ _ _ _ hok
          generalize x.data = l at *
          cases l with
          | nil => simp at hhead
          | cons c tl =>
            simp only [List.head?_cons, Option.some.injEq] at hhead
            subst hhead
            cases e with
            | zero => simp at hxe
            | succ e' =>
              have hdi : List.drop i ('[' :: tl) = ':' :: List.drop (i + 1) ('[' :: tl) := by
                have hlen : (List.take i ('[' :: tl)).length = i := by
                  rw [List.length_take]; omega
                conv_lhs => rw [hx]
                rw [List.drop_left' hlen]
              rw [← hei] at hdi hpp
              simp only [List.take_succ_cons, List.drop_succ_cons, List.drop_zero,
                List.cons_append, List.cons.injEq, true_and] at hxe hh hb1 hb2 htake hdi hpp
              rw [← hpp] at hdi
              rw [hdi] at hxe hb2
              rw [← hh] at hxe htake
              refine ⟨by rw [← hxe], ?_, ?_, ?_, ?_, ?_⟩
              · intro hm
                apply hb1
                rw [hxe]
                simp [hm]
              · intro hm
                exact htake (by simp [hm])
              · rw [hpp]
                have := hdrop
                rw [← hei] at this
                simpa using this
              · intro hm
                apply hb1
                rw [hxe]
                simp [hm]
              · intro hm
                exact hb2 (by simp [hm])
        · split at hok <;> simp at hok

/-- Joining what a split returned gives the authority back when the port is
kept and a bracketed host has a colon. -/
theorem JoinHostPort_SplitHostPort (x h p : String) (hok : SplitHostPort x = .ok (h, p))
    (hbr : x.data.head? = some '[' → ':' ∈ h.data) :
    JoinHostPort h p = x := by
  by_cases hhead : x.data.head? = some '['
  · obtain ⟨hx, _⟩ := SplitHostPort_ok_bracket x h p hhead hok
    have hc : (indexByte h.data ':').isSome = true := (indexByte_isSome_iff _ _).mpr (hbr hhead)
    simp [JoinHostPort, hc, String.ext_iff, hx]
  · obtain ⟨hx, hc, _⟩ := SplitHostPort_ok_plain x h p hhead hok
    have hc : (indexByte h.data ':').isSome = false := by
      rw [Bool.eq_false_iff, ne_eq, indexByte_isSome_iff]; exact hc
    simp [JoinHostPort, hc, String.ext_iff, hx]

theorem JoinHostPort_www (host port : String) :
    JoinHostPort ("www." ++ host) port =
      if ':' ∈ host.data then "[www." ++ host ++ "]:" ++ port
      else "www." ++ host ++ ":" ++ port := by
  have hi : (indexByte ("www." ++ host).data ':').isSome = (indexByte host.data ':').isSome := by
    simp [indexByte]
  unfold JoinHostPort
  rw [hi]
  by_cases hc : ':' ∈ host.data
  · rw [if_pos ((indexByte_isSome_iff _ _).mpr hc), if_pos hc]
    simp [String.ext_iff]
  · have hc2 : ¬ (indexByte host.data ':').isSome = true := by
      rw [indexByte_isSome_iff]; exact hc
    rw [if_neg hc2, if_neg hc]

/-! ## Colons in IP literals -/

theorem parseIPv4FieldsLoop_no_colon (s : List Char) (first prevDot : Bool)
    (val pos digLen : Nat)
    (h : parseIPv4FieldsLoop s first prevDot val pos digLen = true) : ':' ∉ s := by
  induction s generalizing first prevDot val pos digLen with
  | nil => simp
  | cons c rest ih =>
    unfold parseIPv4FieldsLoop at h
    split at h
    · rename_i hd
      have hc : c ≠ ':' := by rintro rfl; exact absurd hd (by decide)
      split at h
      · simp at h
      · split at h
        · simp at h
        · have := ih _ _ _ _ _ h
          simp [hc.symm, this]
    · split at h
      · rename_i hdot
        have hc : c ≠ ':' := by rw [hdot]; decide
        split at h
        · simp at h
        · split at h
          · simp at h
          · have := ih _ _ _ _ _ h
            simp [hc.symm, this]
      · simp at h

theorem parseIPv6Loop_colons (fuel i : Nat) (s : List Char)
    (h : parseIPv6Loop fuel i false s = true) :
    2 ≤ s.count ':' ∨ 12 ≤ i + 2 * s.count ':' := by
  induction fuel generalizing i s with
  | zero => simp [parseIPv6Loop] at h
  | succ fuel ih =>
    unfold parseIPv6Loop at h
    simp only at h
    split at h
    · right; omega
    · split at h
      · simp at h
      · split at h
        · simp at h
        · split at h
          · split at h
            · simp at h
            · rename_i h12
              simp at h12
              right; omega
          · have hcnt : (s.drop (s.takeWhile isHexDigit).length).count ':' ≤ s.count ':' :=
              List.Sublist.count_le (List.drop_sublist _ _) _
            split at h
            · simp at h
              right; omega
            · rename_i c rest1 hrest
              rw [hrest] at hcnt
              split at h
              · simp at h
              · rename_i hc
                simp only [ne_eq, Decidable.not_not] at hc
                subst hc
                split at h
                · simp at h
                · rename_i c1 rest2
                  split at h
                  · rename_i hc1
                    subst hc1
                    left
                    simp at hcnt
                    omega
                  · rename_i hc1
                    have := ih _ _ h
                    simp at hcnt
                    omega

theorem parseAddr_cases (s t : List Char) (h : parseAddr s t = true) :
    parseIPv4Fields s = true ∨ parseIPv6 s = true := by
  induction t with
  | nil => simp [parseAddr] at h
  | cons c rest ih =>
    unfold parseAddr at h
    split at h
    · exact Or.inl h
    · split at h
      · exact Or.inr h
      · split at h
        · simp at h
        · exact ih h

/-- An IP literal has no colon or at least two. -/
theorem isIPAddress_colons (host : String) (h : isIPAddress host = true) :
    host.data.count ':' ≠ 1 := by
  rcases parseAddr_cases host.data host.data h with h4 | h6
  · have := parseIPv4FieldsLoop_no_colon _ _ _ _ _ _ h4
    rw [List.count_eq_zero_of_not_mem this]
    decide
  · unfold parseIPv6 at h6
    split at h6
    · simp at h6
    · split at h6
      · rename_i rest heq
        rw [heq]
        simp
      · have := parseIPv6Loop_colons _ _ _ h6
        omega

/-- An IP literal is not of the form `a:b` with colon-free `a` and `b`. -/
theorem isIPAddress_not_host_port (host : String) (a b : List Char)
    (hx : host.data = a ++ ':' :: b) (ha : ':' ∉ a) (hb : ':' ∉ b) :
    isIPAddress host = false := by
  rw [Bool.eq_false_iff]
  intro h
  apply isIPAddress_colons host h
  rw [hx]
  simp [List.count_eq_zero_of_not_mem ha, List.count_eq_zero_of_not_mem hb]

/-- A list that starts with `www.` and is cut at a colon keeps the prefix in
the part before the colon, when that part is colon-free. -/
theorem www_prefix_of_split (l a b : List Char) (hl : ['w', 'w', 'w', '.'] <+: l)
    (hx : l = a ++ ':' :: b) : ['w', 'w', 'w', '.'] <+: a := by
  obtain ⟨t, rfl⟩ := hl
  rcases a with _ | ⟨a0, _ | ⟨a1, _ | ⟨a2, _ | ⟨a3, a4⟩⟩⟩⟩
  · simp at hx
  · simp at hx
  · simp at hx
  · simp at hx
  · simp at hx
    obtain ⟨rfl, rfl, rfl, rfl, _⟩ := hx
    exact ⟨a4, rfl⟩

theorem HasPrefix_iff (s pfx : String) : HasPrefix s pfx = true ↔ pfx.data <+: s.data := by
  simp [HasPrefix]

/-- Splitting what `net.JoinHostPort` built, for a host without brackets and a
port as `net.SplitHostPort` returns it. -/
theorem SplitHostPort_JoinHostPort (x p : String)
    (x2 : '[' ∉ x.data) (x3 : ']' ∉ x.data)
    (p1 : ':' ∉ p.data) (p2 : '[' ∉ p.data) (p3 : ']' ∉ p.data) :
    SplitHostPort (JoinHostPort x p) = .ok (x, p) := by
  unfold JoinHostPort
  split
  · have hs : "[" ++ x ++ "]:" ++ p = ⟨'[' :: (x.data ++ ']' :: ':' :: p.data)⟩ := by
      simp [String.ext_iff]
    rw [hs]
    exact SplitHostPort_join_bracket x.data p.data x2 x3 p1 p2 p3
  · rename_i hc
    have hc2 : ':' ∉ x.data := by
      rw [← indexByte_isSome_iff]; exact hc
    have hs : x ++ ":" ++ p = ⟨x.data ++ ':' :: p.data⟩ := by
      simp [String.ext_iff]
    rw [hs]
    exact SplitHostPort_join_plain x.data p.data hc2 x2 x3 p1 p2 p3

/-- The port of a request has no colon and no bracket. -/
theorem requestPort_chars (r : Request) :
    ':' ∉ (requestPort r).data ∧ '[' ∉ (requestPort r).data ∧ ']' ∉ (requestPort r).data := by
  unfold requestPort splitHost
  cases hs : SplitHostPort r.Host with
  | error e => simp
  | ok hp =>
    obtain ⟨h, p⟩ := hp
    by_cases hhead : r.Host.data.head? = some '['
    · obtain ⟨_, _, _, h1, h2, h3⟩ := SplitHostPort_ok_bracket _ _ _ hhead hs
      exact ⟨h1, h2, h3⟩
    · obtain ⟨hx, _, h1, h2, h3⟩ := SplitHostPort_ok_plain _ _ _ hhead hs
      rw [hx] at h2 h3
      refine ⟨h1, ?_, ?_⟩
      · intro hm; exact h2 (by simp [hm])
      · intro hm; exact h3 (by simp [hm])

/-- The host of a split authority has no bracket. -/
theorem SplitHostPort_host_chars (x h p : String) (hok : SplitHostPort x = .ok (h, p)) :
    '[' ∉ h.data ∧ ']' ∉ h.data := by
  by_cases hhead : x.data.head? = some '['
  · obtain ⟨_, h1, h2, _⟩ := SplitHostPort_ok_bracket _ _ _ hhead hok
    exact ⟨h1, h2⟩
  · obtain ⟨hx, _, _, h2, h3⟩ := SplitHostPort_ok_plain _ _ _ hhead hok
    rw [hx] at h2 h3
    constructor
    · intro hm; exact h2 (by simp [hm])
    · intro hm; exact h3 (by simp [hm])

/-- The host read from an authority that starts with `www.` starts with
`www.`. -/
theorem splitHost_www (r2 : Request) (hpre : HasPrefix r2.Host "www." = true) :
    HasPrefix (splitHost r2).1 "www." = true := by
  unfold splitHost
  cases hs : SplitHostPort r2.Host with
  | error e => simpa using hpre
  | ok hp =>
    obtain ⟨h, p⟩ := hp
    rw [HasPrefix_iff] at hpre
    have hhead : r2.Host.data.head? ≠ some '[' := by
      obtain ⟨t, ht⟩ := hpre
      rw [← ht]
      simp
    obtain ⟨hx, _⟩ := SplitHostPort_ok_plain _ _ _ hhead hs
    rw [HasPrefix_iff]
    exact www_prefix_of_split _ _ _ hpre hx

theorem effectiveHost_followRedirect (r : Request) (target : URL) :
    effectiveHost (followRedirect r target) = (splitHost (followRedirect r target)).1 := by
  simp [effectiveHost, followRedirect, Header.Get, List.lookup]

theorem effectiveProto_followRedirect (r : Request) (target : URL) :
    effectiveProto (followRedirect r target) = ToLower target.Scheme := by
  rw [effectiveProto_eq]
  simp [followRedirect, Header.Get, List.lookup]

/-- When a port was split off, the effective host has no bracket, provided
the `Host` header has none. -/
theorem effectiveHost_chars (r : Request)
    (hhdr : '[' ∉ (r.Header.Get "Host").data ∧ ']' ∉ (r.Header.Get "Host").data)
    (hp : requestPort r ≠ "") :
    '[' ∉ (effectiveHost r).data ∧ ']' ∉ (effectiveHost r).data := by
  unfold effectiveHost
  by_cases hh : r.Header.Get "Host" = ""
  · simp only [hh, ne_eq, not_true_eq_false, if_false]
    unfold requestPort splitHost at hp
    unfold splitHost
    cases hs : SplitHostPort r.Host with
    | error e => rw [hs] at hp; simp at hp
    | ok hq =>
      obtain ⟨h0, p0⟩ := hq
      exact SplitHostPort_host_chars _ _ _ hs
  · simp only [hh, ne_eq, not_false_eq_true, if_true]
    exact hhdr

/-- The host the handler reads from the authority `e` or `JoinHostPort e p`
it wrote itself. -/
theorem splitHost_target (r r2 : Request) (e : String)
    (hb : requestPort r ≠ "" → '[' ∉ e.data ∧ ']' ∉ e.data)
    (hgood : HasPrefix e "www." = true ∨ isIPAddress e = true)
    (hT : r2.Host = if requestPort r ≠ "" then JoinHostPort e (requestPort r) else e) :
    HasPrefix (splitHost r2).1 "www." = true ∨ isIPAddress (splitHost r2).1 = true := by
  by_cases hp : requestPort r = ""
  · simp only [hp, ne_eq, not_true_eq_false, if_false] at hT
    rcases hgood with hw | hi
    · left
      exact splitHost_www r2 (by rw [hT]; exact hw)
    · right
      unfold splitHost
      cases hs : SplitHostPort r2.Host with
      | error err => simpa [hT] using hi
      | ok hq =>
        obtain ⟨h', q'⟩ := hq
        exfalso
        rw [hT] at hs
        obtain ⟨c, rest, hc, hcc⟩ := parseAddr_head e.data e.data hi
        have hhead : e.data.head? ≠ some '[' := by
          rw [hc]
          simp only [List.head?_cons, ne_eq, Option.some.injEq]
          rintro rfl
          rcases hcc with hcc | hcc
          · exact absurd hcc (by decide)
          · exact absurd hcc (by decide)
        obtain ⟨hx, h1, h2, _⟩ := SplitHostPort_ok_plain _ _ _ hhead hs
        have := isIPAddress_not_host_port e _ _ hx h1 h2
        rw [this] at hi
        exact absurd hi (by simp)
  · obtain ⟨e2, e3⟩ := hb hp
    obtain ⟨p1, p2, p3⟩ := requestPort_chars r
    simp only [hp, ne_eq, not_false_eq_true, if_true] at hT
    have hs : SplitHostPort r2.Host = .ok (e, requestPort r) := by
      rw [hT]; exact SplitHostPort_JoinHostPort _ _ e2 e3 p1 p2 p3
    have : (splitHost r2).1 = e := by simp [splitHost, hs]
    rw [this]
    exact hgood

/-! ## Auxiliary facts about the status handler -/

/-- The status and the errors the handler reports: those of the checker, or
`online` and no errors without a checker. -/
theorem statusHandler_GET (h : statusHandler) (r : Request) (hget : r.Method = "GET")
    (status : Status) (errors : List String)
    (hc : (match h.checker with
      | some checker => checker ()
      | none => (Online, [])) = (status, errors)) :
    h.ServeHTTP NewRecorder r =
      { header := [], wroteHeader := true,
        Code := if status = Online then 200 else 503,
        sent := [],
        Body := json.encodeObject
          (response.fields { Status := status, Version := h.version, Errors := errors }) } := by
  unfold statusHandler.ServeHTTP
  simp only [hget, ne_eq, not_true_eq_false, if_false, hc, response.Marshal]
  by_cases hs : status = Online <;>
    simp [hs, NewRecorder, ResponseWriter.WriteHeader, ResponseWriter.Write, http.StatusOK,
      http.StatusServiceUnavailable]

theorem statusHandler_not_GET (h : statusHandler) (r : Request) (hget : r.Method ≠ "GET")
    (status : Status) (errors : List String)
    (hc : (match h.checker with
      | some checker => checker ()
      | none => (Online, [])) = (status, errors)) :
    h.ServeHTTP NewRecorder r =
      { header := [("X-Content-Type-Options", ["nosniff"]),
          ("Content-Type", ["text/plain; charset=utf-8"])],
        wroteHeader := true,
        Code := 405,
        sent := [("X-Content-Type-Options", ["nosniff"]),
          ("Content-Type", ["text/plain; charset=utf-8"])],
        Body := "Method Not Allowed\n" ++ json.encodeObject
          (response.fields { Status := status, Version := h.version, Errors := errors }) } := by
  unfold statusHandler.ServeHTTP
  simp only [hget, ne_eq, not_false_eq_true, if_true, hc, response.Marshal]
  by_cases hs : status = Online <;>
    simp [hs, NewRecorder, ResponseWriter.WriteHeader, ResponseWriter.Write, http.Error,
      http.StatusText, http.StatusMethodNotAllowed, Header.Set, Header.Del]

/-! ## Auxiliary facts about the responses of the redirect handler -/

theorem Redirect_NewRecorder (r : Request) (url : String) (code : Nat) :
    http.Redirect NewRecorder r url code =
      { header := if r.Method = "GET" ∨ r.Method = "HEAD" then
            [("Content-Type", ["text/html; charset=utf-8"]),
              ("Location", [http.hexEscapeNonASCII (http.redirectURL r url)])]
          else [("Location", [http.hexEscapeNonASCII (http.redirectURL r url)])],
        wroteHeader := true,
        Code := code,
        sent := if r.Method = "GET" ∨ r.Method = "HEAD" then
            [("Content-Type", ["text/html; charset=utf-8"]),
              ("Location", [http.hexEscapeNonASCII (http.redirectURL r url)])]
          else [("Location", [http.hexEscapeNonASCII (http.redirectURL r url)])],
        Body := if r.Method = "GET" then
            "<a href=\"" ++ http.htmlEscape (http.redirectURL r url) ++ "\">" ++ http.StatusText code ++ "</a>.\n\n"
          else "" } := by
  unfold http.Redirect
  by_cases hg : r.Method = "GET"
  · simp [hg, NewRecorder, Header.Has, List.lookup, Header.Set, ResponseWriter.WriteHeader,
      ResponseWriter.Write, String.ext_iff]
  · by_cases hh : r.Method = "HEAD"
    · simp [hg, hh, NewRecorder, Header.Has, List.lookup, Header.Set,
        ResponseWriter.WriteHeader, ResponseWriter.Write]
    · simp [hg, hh, NewRecorder, Header.Has, List.lookup, Header.Set,
        ResponseWriter.WriteHeader, ResponseWriter.Write]

theorem NotFound_NewRecorder (r : Request) :
    http.NotFound NewRecorder r =
      { header := [("X-Content-Type-Options", ["nosniff"]),
          ("Content-Type", ["text/plain; charset=utf-8"])],
        wroteHeader := true,
        Code := 404,
        sent := [("X-Content-Type-Options", ["nosniff"]),
          ("Content-Type", ["text/plain; charset=utf-8"])],
        Body := "404 page not found\n" } := by
  simp [http.NotFound, http.Error, NewRecorder, ResponseWriter.WriteHeader,
    ResponseWriter.Write, Header.Set, Header.Del, http.StatusNotFound]

/-- The rendering of a URL with a host and without opaque part: the authority
follows `//`, and a slash is put before an escaped path that is not empty and
does not start with one. -/
theorem URL_String_authority (u : URL) (ho : u.Opaque = "") (hh : u.Host ≠ "") :
    u.String = (if u.Scheme ≠ "" then u.Scheme ++ ":" else "") ++ "//" ++
      (match u.User with
       | some ui => ui.String ++ "@"
       | none => "") ++
      escape u.Host encoding.encodeHost ++
      (if u.EscapedPath ≠ "" ∧ u.EscapedPath.data.head? ≠ some '/' then "/" else "") ++
      u.EscapedPath ++
      (if u.ForceQuery = true ∨ u.RawQuery ≠ "" then "?" ++ u.RawQuery else "") ++
      (if u.Fragment ≠ "" then "#" ++ u.EscapedFragment else "") := by
  have hh2 : ¬ u.Host.data = [] := by
    intro hcon; exact hh (String.ext_iff.mpr hcon)
  unfold URL.String
  by_cases hp : u.EscapedPath ≠ "" ∧ u.EscapedPath.data.head? ≠ some '/'
  · simp [hh, ho, hp, hh2, String.ext_iff]
  · simp [hh, ho, hp, hh2, String.ext_iff]

/-! ## Auxiliary facts about `url.Parse` and `http.Redirect` -/

/-- When the loop of `getScheme` stops at the colon that ends `l` with a
non-empty scheme, the bytes of `l` are scheme bytes, and the loop stops at the
same colon whatever text surrounds `l`. -/
theorem getSchemeLoop_colon (l : List Char) :
    ∀ (i : Nat) (raw rest x : List Char),
      getSchemeLoop raw i (l ++ ':' :: rest) = .ok (x, rest) → x ≠ [] →
      (∀ c ∈ l, c ≠ '#') ∧
      ∀ raw2 rest2 : List Char,
        getSchemeLoop raw2 i (l ++ ':' :: rest2) = .ok (raw2.take (i + l.length), rest2) := by
  induction l with
  | nil =>
    intro i raw rest x h hx
    refine ⟨by simp, ?_⟩
    intro raw2 rest2
    rw [List.nil_append, getSchemeLoop] at h
    rw [List.nil_append, getSchemeLoop]
    have h1 : isLetter ':' = false := by decide
    have h2 : (isDigit ':' || decide (':' = '+') || decide (':' = '-') || decide (':' = '.')) = false := by
      decide
    simp only [h1, h2, Bool.false_eq_true, if_false, if_true] at h ⊢
    by_cases hi : i = 0
    · simp [hi] at h
    · simp [hi]
  | cons c l ih =>
    intro i raw rest x h hx
    rw [List.cons_append, getSchemeLoop] at h
    by_cases hl : isLetter c = true
    · simp only [hl, if_true] at h
      obtain ⟨h1, h2⟩ := ih (i + 1) raw rest x h hx
      refine ⟨?_, ?_⟩
      · intro d hd
        rcases List.mem_cons.mp hd with rfl | hd
        · intro hcon; rw [hcon] at hl; exact absurd hl (by decide)
        · exact h1 d hd
      · intro raw2 rest2
        rw [List.cons_append, getSchemeLoop]
        simp only [hl, if_true, List.length_cons]
        rw [h2 raw2 rest2]
        congr 3; omega
    · simp only [hl, Bool.false_eq_true, if_false] at h
      by_cases hd : (isDigit c || decide (c = '+') || decide (c = '-') || decide (c = '.')) = true
      · simp only [hd, if_true] at h
        by_cases hi : i = 0
        · simp only [hi, if_true, Except.ok.injEq, Prod.mk.injEq] at h
          exact absurd h.1.symm hx
        · simp only [hi, if_false] at h
          obtain ⟨h1, h2⟩ := ih (i + 1) raw rest x h hx
          refine ⟨?_, ?_⟩
          · intro d hd2
            rcases List.mem_cons.mp hd2 with rfl | hd2
            · intro hcon; rw [hcon] at hd; exact absurd hd (by decide)
            · exact h1 d hd2
          · intro raw2 rest2
            rw [List.cons_append, getSchemeLoop]
            simp only [hl, Bool.false_eq_true, if_false, hd, if_true, hi, List.length_cons]
            rw [h2 raw2 rest2]
            congr 3; omega
      · simp only [hd, Bool.false_eq_true, if_false] at h
        by_cases hc : c = ':'
        · simp only [hc, if_true] at h
          by_cases hi : i = 0
          · simp [hi] at h
          · simp only [hi, if_false, Except.ok.injEq, Prod.mk.injEq] at h
            have := congrArg List.length h.2
            simp at this
            omega
        · simp only [hc, if_false, Except.ok.injEq, Prod.mk.injEq] at h
          exact absurd h.1.symm hx

/-- A text that starts with a scheme and a colon is no relative reference for
`url.Parse`. -/
theorem parsesRelative_scheme (s rest : List Char) (hs : s ≠ [])
    (hg : getScheme (s ++ [':']) = .ok (s, [])) :
    parsesRelative ⟨s ++ ':' :: rest⟩ = false := by
  obtain ⟨h1, h2⟩ := getSchemeLoop_colon s 0 (s ++ [':']) [] s hg hs
  have htw : (s ++ ':' :: rest).takeWhile (fun c => c ≠ '#') =
      s ++ ':' :: rest.takeWhile (fun c => c ≠ '#') := by
    rw [List.takeWhile_append_of_pos (by simpa using h1)]
    simp [List.takeWhile_cons]
  have hgs : getScheme (s ++ ':' :: rest.takeWhile (fun c => c ≠ '#')) =
      .ok (s, rest.takeWhile (fun c => c ≠ '#')) := by
    unfold getScheme
    rw [h2]
    simp
  have hne : s ++ ':' :: rest.takeWhile (fun c => c ≠ '#') ≠ ['*'] := by
    intro hcon
    have := congrArg List.length hcon
    have hlen : 0 < s.length := List.length_pos.mpr hs
    simp at this
    omega
  unfold parsesRelative
  simp only [htw]
  by_cases hctl : stringContainsCTLByte (s ++ ':' :: rest.takeWhile (fun c => c ≠ '#')) = true
  · rw [if_pos hctl]
  · rw [if_neg hctl, if_neg hne, hgs]
    simp only [ne_eq, hs, not_false_eq_true, if_true]

/-- The rendering of a URL with a scheme starts with the scheme and a colon. -/
theorem URL_String_scheme (u : URL) (hs : u.Scheme ≠ "") :
    ∃ rest : List Char, u.String = ⟨u.Scheme.data ++ ':' :: rest⟩ := by
  unfold URL.String
  simp only [hs, ne_eq, not_false_eq_true, if_true]
  exact ⟨_, String.ext_iff.mpr (by simp [String.data_append]; rfl)⟩

/-- Go `http.Redirect` leaves the rendering of a URL with a scheme as it is. -/
theorem redirectURL_String (r : Request) (u : URL) (hs : u.Scheme ≠ "")
    (hg : getScheme (u.Scheme.data ++ [':']) = .ok (u.Scheme.data, [])) :
    http.redirectURL r u.String = u.String := by
  obtain ⟨rest, hrest⟩ := URL_String_scheme u hs
  have hs2 : u.Scheme.data ≠ [] := by
    intro hcon; exact hs (String.ext_iff.mpr hcon)
  unfold http.redirectURL
  rw [hrest, parsesRelative_scheme _ rest hs2 hg]
  simp


/-- The text `https:` starts with the scheme `https`. -/
theorem getScheme_https : getScheme ("https".data ++ [':']) = .ok ("https".data, []) := by
  decide

/-- What `url.Parse` takes for the authority of `//A T`, when `A` has no
slash, question mark or number sign and `T` is empty or starts with one. -/
theorem takeWhile_authority (A T : List Char)
    (hchars : ∀ c ∈ A, c ≠ '/' ∧ c ≠ '?' ∧ c ≠ '#')
    (hT : T = [] ∨ T.head? = some '/' ∨ T.head? = some '?' ∨ T.head? = some '#') :
    ∃ T2 : List Char,
      ((A ++ T).takeWhile (fun c => c ≠ '#')).takeWhile (fun c => c ≠ '?') = A ++ T2 ∧
      (A ++ T2).takeWhile (fun c => c ≠ '/') = A ∧
      (A ++ T2).dropWhile (fun c => c ≠ '/') = T2 := by
  have h1 : ∀ c ∈ A, (fun c => decide (c ≠ '#')) c = true := by
    intro c hc; simpa using (hchars c hc).2.2
  have h2 : ∀ c ∈ A, (fun c => decide (c ≠ '?')) c = true := by
    intro c hc; simpa using (hchars c hc).2.1
  have h3 : ∀ c ∈ A, (fun c => decide (c ≠ '/')) c = true := by
    intro c hc; simpa using (hchars c hc).1
  have hd : ∀ T2 : List Char, (T2 = [] ∨ T2.head? = some '/') →
      (A ++ T2).takeWhile (fun c => c ≠ '/') = A ∧
      (A ++ T2).dropWhile (fun c => c ≠ '/') = T2 := by
    intro T2 hT2
    rw [List.takeWhile_append_of_pos h3, List.dropWhile_append_of_pos h3]
    rcases hT2 with rfl | hT2
    · simp
    · cases T2 with
      | nil => simp
      | cons t T3 =>
        simp only [List.head?_cons, Option.some.injEq] at hT2
        subst hT2
        simp [List.takeWhile_cons, List.dropWhile_cons]
  rw [List.takeWhile_append_of_pos h1]
  cases T with
  | nil =>
    refine ⟨[], ?_, hd [] (Or.inl rfl)⟩
    simp only [List.takeWhile_nil, List.append_nil]
    rw [← List.append_nil A, List.takeWhile_append_of_pos h2]
    simp
  | cons t T1 =>
    simp only [List.head?_cons, Option.some.injEq, reduceCtorEq, false_or] at hT
    rcases hT with rfl | rfl | rfl
    · refine ⟨'/' :: (T1.takeWhile (fun c => c ≠ '#')).takeWhile (fun c => c ≠ '?'), ?_,
        hd _ (Or.inr rfl)⟩
      rw [List.takeWhile_cons]
      simp only [ne_eq, Char.reduceEq, not_false_eq_true, decide_True, if_true]
      rw [List.takeWhile_append_of_pos h2, List.takeWhile_cons]
      simp
    · refine ⟨[], ?_, hd [] (Or.inl rfl)⟩
      rw [List.takeWhile_cons]
      simp only [ne_eq, Char.reduceEq, not_false_eq_true, decide_True, if_true]
      rw [List.takeWhile_append_of_pos h2, List.takeWhile_cons]
      simp
    · refine ⟨[], ?_, hd [] (Or.inl rfl)⟩
      rw [List.takeWhile_cons]
      simp only [ne_eq, not_true_eq_false, decide_False, Bool.false_eq_true, if_false,
        List.append_nil]
      rw [← List.append_nil A, List.takeWhile_append_of_pos h2]
      simp

/-- A text `//A T` whose authority `A` has a host is no relative reference for
`url.Parse`. -/
theorem parsesRelative_authority (A T : List Char)
    (hchars : ∀ c ∈ A, c ≠ '/' ∧ c ≠ '?' ∧ c ≠ '#')
    (hhost : parseAuthorityEmptyHost A = false)
    (hT : T = [] ∨ T.head? = some '/' ∨ T.head? = some '?' ∨ T.head? = some '#') :
    parsesRelative ⟨'/' :: '/' :: (A ++ T)⟩ = false := by
  obtain ⟨T2, e1, e2, e3⟩ := takeWhile_authority A T hchars hT
  have hA : A ≠ [] := by
    intro hcon; rw [hcon] at hhost; exact absurd hhost (by decide)
  obtain ⟨a, A1, rfl⟩ := List.exists_cons_of_ne_nil hA
  have ha : a ≠ '/' := (hchars a (List.mem_cons_self _ _)).1
  have hu : ('/' :: '/' :: (a :: A1 ++ T)).takeWhile (fun c => c ≠ '#') =
      '/' :: '/' :: (a :: A1 ++ T).takeWhile (fun c => c ≠ '#') := by
    simp [List.takeWhile_cons]
  have hr : ('/' :: '/' :: (a :: A1 ++ T).takeWhile (fun c => c ≠ '#')).takeWhile
      (fun c => c ≠ '?') = '/' :: '/' :: (a :: A1 ++ T2) := by
    rw [← e1]
    simp [List.takeWhile_cons]
  have hg : getScheme ('/' :: '/' :: (a :: A1 ++ T).takeWhile (fun c => c ≠ '#')) =
      .ok ([], '/' :: '/' :: (a :: A1 ++ T).takeWhile (fun c => c ≠ '#')) := by
    unfold getScheme
    rw [getSchemeLoop]
    have h1 : isLetter '/' = false := by decide
    have h2 : (isDigit '/' || decide ('/' = '+') || decide ('/' = '-') || decide ('/' = '.')) =
        false := by decide
    simp [h1, h2]
  unfold parsesRelative
  simp only [hu]
  by_cases hctl : stringContainsCTLByte
      ('/' :: '/' :: (a :: A1 ++ T).takeWhile (fun c => c ≠ '#')) = true
  · rw [if_pos hctl]
  · rw [if_neg hctl, if_neg (by simp), hg]
    simp only [ne_eq, not_true_eq_false, if_false, hr]
    have hp3 : ['/', '/', '/'].isPrefixOf ('/' :: '/' :: (a :: A1 ++ T2)) = false := by
      simp [List.isPrefixOf, ha.symm]
    have hp2 : ['/', '/'].isPrefixOf ('/' :: '/' :: (a :: A1 ++ T2)) = true := by
      simp [List.isPrefixOf]
    have hd2 : ('/' :: '/' :: (a :: A1 ++ T2)).drop 2 = a :: A1 ++ T2 := rfl
    simp only [List.head?_cons, ne_eq, not_true_eq_false, false_and, if_false, hp3, hp2,
      Bool.false_eq_true, not_false_eq_true, and_self, if_true, hd2, e2, hhost, Bool.false_and]

/-- The bytes `escape` writes: a byte of the text that needs no escaping, or
`+`, `%` or an upper-case hexadecimal digit. -/
theorem escape_chars (s : String) (mode : encoding) (c : Char)
    (hc : c ∈ (escape s mode).data) :
    (c ∈ s.data ∧ shouldEscape c mode = false) ∨ c = '+' ∨ c = '%' ∨
      ∃ n, n < 16 ∧ c = upperhex n := by
  unfold escape at hc
  simp only [List.mem_flatMap] at hc
  obtain ⟨b, hb, hcb⟩ := hc
  by_cases hesc : shouldEscape b mode = true
  · simp only [hesc, if_true] at hcb
    by_cases hsp : b = ' ' ∧ mode = encoding.encodeQueryComponent
    · simp only [hsp, and_self, if_true, List.mem_singleton] at hcb
      exact Or.inr (Or.inl hcb)
    · simp only [hsp, if_false, List.mem_cons, List.mem_singleton, List.not_mem_nil,
        or_false] at hcb
      rcases hcb with rfl | rfl | rfl
      · exact Or.inr (Or.inr (Or.inl rfl))
      · exact Or.inr (Or.inr (Or.inr ⟨_, Nat.mod_lt _ (by decide), rfl⟩))
      · exact Or.inr (Or.inr (Or.inr ⟨_, Nat.mod_lt _ (by decide), rfl⟩))
  · simp only [hesc, Bool.false_eq_true, if_false, List.mem_singleton] at hcb
    subst hcb
    exact Or.inl ⟨hb, by simpa using hesc⟩

/-- No upper-case hexadecimal digit is one of the delimiters of a URL. -/
theorem upperhex_ne (n : Nat) (hn : n < 16) :
    upperhex n ≠ '/' ∧ upperhex n ≠ '?' ∧ upperhex n ≠ '#' ∧ upperhex n ≠ '@' := by
  have h : ∀ m, m < 16 →
      upperhex m ≠ '/' ∧ upperhex m ≠ '?' ∧ upperhex m ≠ '#' ∧ upperhex m ≠ '@' := by decide
  exact h n hn

/-- An escaped host has no slash, question mark, number sign or at sign. -/
theorem escape_host_chars (s : String) (c : Char)
    (hc : c ∈ (escape s encoding.encodeHost).data) :
    c ≠ '/' ∧ c ≠ '?' ∧ c ≠ '#' ∧ c ≠ '@' := by
  rcases escape_chars s _ c hc with ⟨_, h⟩ | rfl | rfl | ⟨n, hn, rfl⟩
  · refine ⟨?_, ?_, ?_, ?_⟩ <;> (intro hcon; rw [hcon] at h; exact absurd h (by decide))
  · decide
  · decide
  · exact upperhex_ne n hn

/-- Escaped user information has no slash, question mark, number sign or at
sign. -/
theorem Userinfo_String_chars (ui : Userinfo) (c : Char) (hc : c ∈ ui.String.data) :
    c ≠ '/' ∧ c ≠ '?' ∧ c ≠ '#' ∧ c ≠ '@' := by
  have he : ∀ s : String, ∀ d ∈ (escape s encoding.encodeUserPassword).data,
      d ≠ '/' ∧ d ≠ '?' ∧ d ≠ '#' ∧ d ≠ '@' := by
    intro s d hd
    rcases escape_chars s _ d hd with ⟨_, h⟩ | rfl | rfl | ⟨n, hn, rfl⟩
    · refine ⟨?_, ?_, ?_, ?_⟩ <;> (intro hcon; rw [hcon] at h; exact absurd h (by decide))
    · decide
    · decide
    · exact upperhex_ne n hn
  unfold Userinfo.String at hc
  by_cases hp : ui.passwordSet = true
  · simp only [hp, if_true, String.data_append, List.mem_append] at hc
    rcases hc with (hc | hc) | hc
    · exact he _ c hc
    · have : c = ':' := by simpa using hc
      subst this; decide
    · exact he _ c hc
  · simp only [hp, Bool.false_eq_true, if_false] at hc
    exact he _ c hc

/-- Escaping keeps a non-empty text non-empty. -/
theorem escape_ne_nil (s : String) (mode : encoding) (hs : s ≠ "") :
    (escape s mode).data ≠ [] := by
  have hs2 : s.data ≠ [] := fun hcon => hs (String.ext_iff.mpr hcon)
  obtain ⟨a, l, hal⟩ := List.exists_cons_of_ne_nil hs2
  unfold escape
  simp only [hal, List.flatMap_cons]
  intro hcon
  have h1 := (List.append_eq_nil.mp hcon).1
  split_ifs at h1

/-- An authority that ends in a non-empty escaped host has a host. -/
theorem parseAuthorityEmptyHost_host (U E : List Char) (hE : E ≠ [])
    (hat : '@' ∉ E) (hU : U = [] ∨ ∃ U1, '@' ∉ U1 ∧ U = U1 ++ ['@']) :
    parseAuthorityEmptyHost (U ++ E) = false := by
  unfold parseAuthorityEmptyHost
  rcases hU with rfl | ⟨U1, hU1, rfl⟩
  · have hnone : lastIndexByte ([] ++ E) '@' = none := by
      simpa using (lastIndexByte_eq_none_iff E '@').mpr hat
    rw [hnone]
    simpa using hE
  · have hsome : lastIndexByte (U1 ++ ['@'] ++ E) '@' = some U1.length := by
      have := lastIndexByte_append_cons U1 E '@' hat
      simpa using this
    rw [hsome]
    have hdrop : (U1 ++ ['@'] ++ E).drop (U1.length + 1) = E := by
      have : U1 ++ ['@'] ++ E = (U1 ++ ['@']) ++ E := rfl
      rw [List.drop_left' (by simp)]
    simp only [hdrop]
    have : E.isEmpty = false := by
      cases E with
      | nil => exact absurd rfl hE
      | cons e E1 => rfl
    simp [this]

/-- The rendering of a URL with a host, without scheme and opaque part, is no
relative reference for `url.Parse`. -/
theorem parsesRelative_String_host (u : URL) (hs : u.Scheme = "") (ho : u.Opaque = "")
    (hh : u.Host ≠ "") : parsesRelative u.String = false := by
  have hE : (escape u.Host encoding.encodeHost).data ≠ [] := escape_ne_nil _ _ hh
  have hEc := escape_host_chars u.Host
  have hh2 : ¬ u.Host.data = [] := by
    intro hcon; exact hh (String.ext_iff.mpr hcon)
  -- the authority and what follows it
  obtain ⟨U, hU, hUc, hUs⟩ : ∃ U : List Char, (U = [] ∨ ∃ U1, '@' ∉ U1 ∧ U = U1 ++ ['@']) ∧
      (∀ c ∈ U, c ≠ '/' ∧ c ≠ '?' ∧ c ≠ '#') ∧
      U = (match u.User with
        | some ui => ui.String ++ "@"
        | none => "").data := by
    cases hu : u.User with
    | none => exact ⟨[], Or.inl rfl, by simp, rfl⟩
    | some ui =>
      refine ⟨ui.String.data ++ ['@'], Or.inr ⟨ui.String.data, ?_, rfl⟩, ?_, ?_⟩
      · intro hcon; exact (Userinfo_String_chars ui '@' hcon).2.2.2 rfl
      · intro c hc
        rcases List.mem_append.mp hc with hc | hc
        · have := Userinfo_String_chars ui c hc
          exact ⟨this.1, this.2.1, this.2.2.1⟩
        · have : c = '@' := by simpa using hc
          subst this; decide
      · simp [String.data_append]
  obtain ⟨T, hT, hTs⟩ : ∃ T : List Char,
      (T = [] ∨ T.head? = some '/' ∨ T.head? = some '?' ∨ T.head? = some '#') ∧
      u.String = ⟨'/' :: '/' :: ((U ++ (escape u.Host encoding.encodeHost).data) ++ T)⟩ := by
    refine ⟨((if u.EscapedPath ≠ "" ∧ u.EscapedPath.data.head? ≠ some '/' then "/" else "") ++
      u.EscapedPath ++
      (if u.ForceQuery = true ∨ u.RawQuery ≠ "" then "?" ++ u.RawQuery else "") ++
      (if u.Fragment ≠ "" then "#" ++ u.EscapedFragment else "")).data, ?_, ?_⟩
    · by_cases hp : u.EscapedPath = ""
      · by_cases hq : u.ForceQuery = true ∨ u.RawQuery ≠ ""
        · right; right; left
          simp [hp, hq, String.data_append]
        · by_cases hf : u.Fragment = ""
          · left
            simp [hp, hq, hf]
          · right; right; right
            simp [hp, hq, hf, String.data_append]
      · have hp2 : u.EscapedPath.data ≠ [] := fun hcon => hp (String.ext_iff.mpr hcon)
        obtain ⟨a, l, hal⟩ := List.exists_cons_of_ne_nil hp2
        right; left
        by_cases ha : a = '/'
        · simp [hp, hal, ha, String.data_append]
        · simp [hp, hal, ha, String.data_append]
    · unfold URL.String
      rw [hUs]
      apply String.ext_iff.mpr
      simp [hs, ho, hh, hh2, String.data_append]
      rfl
  rw [hTs]
  apply parsesRelative_authority
  · intro c hc
    rcases List.mem_append.mp hc with hc | hc
    · exact hUc c hc
    · have := hEc c hc
      exact ⟨this.1, this.2.1, this.2.2.1⟩
  · exact parseAuthorityEmptyHost_host U _ hE (fun hcon => (hEc '@' hcon).2.2.2 rfl) hU
  · exact hT

/-- Go `http.Redirect` leaves the rendering of a URL with a host, without
scheme and opaque part, as it is. -/
theorem redirectURL_String_host (r : Request) (u : URL) (hs : u.Scheme = "")
    (ho : u.Opaque = "") (hh : u.Host ≠ "") :
    http.redirectURL r u.String = u.String := by
  unfold http.redirectURL
  rw [parsesRelative_String_host u hs ho hh]
  simp

/-- Unescaping a non-empty text gives a non-empty text. -/
theorem unescapeLoop_ne_nil (mode : encoding) (c : Char) (l t : List Char)
    (h : unescapeLoop mode (c :: l) = some t) : t ≠ [] := by
  have hmap : ∀ (f : List Char → List Char) (o : Option (List Char)),
      (∀ x, f x ≠ []) → o.map f = some t → t ≠ [] := by
    intro f o hf ho
    cases o with
    | none => simp at ho
    | some x =>
      simp only [Option.map_some', Option.some.injEq] at ho
      rw [← ho]; exact hf x
  unfold unescapeLoop at h
  by_cases hc : c = '%'
  · simp only [hc, if_true] at h
    split at h
    · split_ifs at h
      exact hmap _ _ (by simp) h
    · simp at h
  · simp only [hc, if_false] at h
    split_ifs at h
    all_goals exact hmap _ _ (by simp) h

/-- An empty path is rendered as the empty text. -/
theorem EscapedPath_empty (u : URL) (hp : u.Path = "") : u.EscapedPath = "" := by
  unfold URL.EscapedPath
  have hraw : ¬ (u.RawPath ≠ "" ∧ validEncoded u.RawPath encoding.encodePath = true ∧
      unescape u.RawPath encoding.encodePath = some u.Path) := by
    rintro ⟨h1, _, h3⟩
    have h1d : u.RawPath.data ≠ [] := fun hcon => h1 (String.ext_iff.mpr hcon)
    obtain ⟨c, l, hcl⟩ := List.exists_cons_of_ne_nil h1d
    unfold unescape at h3
    rw [hcl] at h3
    cases hu : unescapeLoop encoding.encodePath (c :: l) with
    | none => rw [hu] at h3; simp at h3
    | some t =>
      rw [hu] at h3
      simp only [Option.map_some', Option.some.injEq] at h3
      have := unescapeLoop_ne_nil _ c l t hu
      rw [hp] at h3
      exact this (by simpa using congrArg String.data h3)
  rw [if_neg hraw, hp]
  decide

/-! ## The bounded loops have rounds enough -/

/-- The second component of a conditional pair. -/
theorem pair_snd_ite (c : Prop) [Decidable c] (x y : Nat × Nat) (hx : 1 ≤ x.2)
    (hy : 1 ≤ y.2) : 1 ≤ (if c then x else y).2 := by
  split_ifs
  · exact hx
  · exact hy

/-- A rune decoded from a non-empty text has a width of at least one byte. -/
theorem DecodeRuneInString_size (b : Char) (rest : List Char) :
    1 ≤ (utf8.DecodeRuneInString (b :: rest)).2 := by
  rw [utf8.DecodeRuneInString]
  dsimp only
  refine pair_snd_ite _ _ _ (Nat.le_refl 1) ?_
  refine pair_snd_ite _ _ _ (Nat.le_refl 1) ?_
  refine pair_snd_ite _ _ _ (Nat.le_refl 1) ?_
  refine pair_snd_ite _ _ _ (Nat.le_refl 1) ?_
  refine pair_snd_ite _ _ _ (Nat.le_succ 1) ?_
  refine pair_snd_ite _ _ _ (Nat.le_refl 1) ?_
  refine pair_snd_ite _ _ _ (Nat.le_succ_of_le (Nat.le_succ 1)) ?_
  refine pair_snd_ite _ _ _ (Nat.le_refl 1) ?_
  exact Nat.le_succ_of_le (Nat.le_succ_of_le (Nat.le_succ 1))

/-- The loop of `appendString` gives the same text for every number of rounds
from the length of the text on. -/
theorem appendStringLoop_fuel (n : Nat) :
    ∀ (m : Nat) (src : List Char), src.length ≤ n → src.length ≤ m →
      json.appendStringLoop n src = json.appendStringLoop m src := by
  induction n with
  | zero =>
    intro m src hn _
    have : src = [] := List.length_eq_zero.mp (Nat.le_zero.mp hn)
    subst this
    cases m <;> simp [json.appendStringLoop]
  | succ n ih =>
    intro m src hn hm
    cases src with
    | nil => cases m <;> simp [json.appendStringLoop]
    | cons b rest =>
      cases m with
      | zero => simp at hm
      | succ m =>
        have hr1 : rest.length ≤ n := by simpa using hn
        have hr2 : rest.length ≤ m := by simpa using hm
        have hsize := DecodeRuneInString_size b rest
        have hd1 : ((b :: rest).drop (utf8.DecodeRuneInString (b :: rest)).2).length ≤ n := by
          rw [List.length_drop]; simp only [List.length_cons]; omega
        have hd2 : ((b :: rest).drop (utf8.DecodeRuneInString (b :: rest)).2).length ≤ m := by
          rw [List.length_drop]; simp only [List.length_cons]; omega
        simp only [json.appendStringLoop]
        rw [ih m rest hr1 hr2, ih m _ hd1 hd2]

/-- The loop of `path.Clean` gives the same text for every number of rounds
from the length of what is left to read on. -/
theorem cleanLoop_fuel (rooted : Bool) (n : Nat) :
    ∀ (m : Nat) (p out : List Char) (dotdot : Nat), p.length ≤ n → p.length ≤ m →
      path.cleanLoop rooted n p out dotdot = path.cleanLoop rooted m p out dotdot := by
  induction n with
  | zero =>
    intro m p out dotdot hn _
    have : p = [] := List.length_eq_zero.mp (Nat.le_zero.mp hn)
    subst this
    cases m <;> simp [path.cleanLoop]
  | succ n ih =>
    intro m p out dotdot hn hm
    cases p with
    | nil => cases m <;> simp [path.cleanLoop]
    | cons c rest =>
      cases m with
      | zero => simp at hm
      | succ m =>
        have hr1 : rest.length ≤ n := by simpa using hn
        have hr2 : rest.length ≤ m := by simpa using hm
        have hd : (rest.drop 1).length ≤ rest.length := by rw [List.length_drop]; omega
        have hw : ((c :: rest).dropWhile (fun b => decide (b ≠ '/'))).length ≤
            (c :: rest).length := List.Sublist.length_le (List.dropWhile_sublist _)
        simp only [path.cleanLoop]
        by_cases h1 : c = '/'
        · simp only [h1, if_true]
          exact ih m rest _ _ hr1 hr2
        · have hw2 : ((c :: rest).dropWhile (fun b => decide (b ≠ '/'))).length ≤
              rest.length := by
            rw [List.dropWhile_cons]
            simp only [ne_eq, h1, not_false_eq_true, decide_True, if_true]
            exact List.Sublist.length_le (List.dropWhile_sublist _)
          rw [if_neg h1]
          split_ifs
          all_goals first
            | exact ih m rest _ _ hr1 hr2
            | exact ih m _ _ _ (by omega) (by omega)

/-! ## Auxiliary facts about the target of a redirect -/

/-- The target of a redirect is the request URL with another scheme and
another host authority. -/
theorem location_fields (h : redirectHandler) (r : Request) (target : URL)
    (hloc : h.location r = some target) :
    target = { r.URL with Scheme := target.Scheme, Host := target.Host } := by
  rw [location_eq] at hloc
  split at hloc
  · simp only [Option.some.injEq, copyURL_eq] at hloc
    subst hloc
    rfl
  · exact absurd hloc (by simp)

/-- The scheme of the target of a redirect: `https` when the HTTPS upgrade
applies, else the effective protocol. -/
theorem location_Scheme (h : redirectHandler) (r : Request) (target : URL)
    (hloc : h.location r = some target) :
    target.Scheme =
      (if h.upgradeSSL = true ∧ effectiveProto r ≠ "https" then "https"
       else effectiveProto r) := by
  rw [location_eq] at hloc
  split at hloc
  · simp only [Option.some.injEq] at hloc
    rw [← hloc]
  · exact absurd hloc (by simp)

/-- When `net.ParseIP` accepts the effective host, `upgradeWWW` never
changes it, whatever the flags: the answer is 307 only for an HTTPS upgrade
(so 404 with `upgradeSSL = false`), and the host authority of any redirect
target is the literal itself, joined with the port of the request when there
is one, and does not start with `www.`. -/
theorem isIPAddress_host_kept (h : redirectHandler) (r : Request)
    (hip : isIPAddress (effectiveHost r) = true) :
    (h.ServeHTTP NewRecorder r).Code =
      (if h.upgradeSSL = true ∧ effectiveProto r ≠ "https" then 307 else 404) ∧
    ((NewRedirectHandler false h.upgradeWWW).ServeHTTP NewRecorder r).Code = 404 ∧
    (h.location r).map (fun target => target.Host) =
      (h.location r).map (fun _ =>
        if requestPort r ≠ "" then JoinHostPort (effectiveHost r) (requestPort r)
        else effectiveHost r) ∧
    (h.location r).map (fun target => HasPrefix target.Host "www.") =
      (h.location r).map (fun _ => false) := by
  have hl := location_eq h r
  have hl0 := location_eq (NewRedirectHandler false h.upgradeWWW) r
  simp only [hip, Bool.true_eq_false, and_false, or_false, ite_false, reduceCtorEq] at hl hl0
  simp only [NewRedirectHandler, Bool.false_eq_true, false_and, ite_false] at hl0
  simp only [NewRedirectHandler]
  refine ⟨?_, ?_, ?_, ?_⟩
  · rw [ServeHTTP_Code, hl]; split <;> rfl
  · rw [ServeHTTP_Code, hl0]; rfl
  · rw [hl]; split <;> simp
  · rw [hl]
    split
    · simp only [Option.map_some']
      split
      · simp [JoinHostPort_not_www _ _ hip]
      · simp [isIPAddress_not_www _ hip]
    · rfl

/-! ## The claims -/

/-- C1: for every request and every pair of flags the redirect handler
answers 307 exactly when an upgrade condition applies (`upgradeSSL` and the
effective protocol is not `https`, or `upgradeWWW` and the effective host
neither starts with `www.` nor is an IP literal), and 404 exactly when none
applies. -/
theorem C1_redirect_iff_upgrade (h : redirectHandler) (r : Request) :
    ((h.ServeHTTP NewRecorder r).Code = 307 ↔
      ((h.upgradeSSL = true ∧ effectiveProto r ≠ "https") ∨
        (h.upgradeWWW = true ∧ HasPrefix (effectiveHost r) "www." = false ∧
          isIPAddress (effectiveHost r) = false))) ∧
    ((h.ServeHTTP NewRecorder r).Code = 404 ↔
      ¬ ((h.upgradeSSL = true ∧ effectiveProto r ≠ "https") ∨
        (h.upgradeWWW = true ∧ HasPrefix (effectiveHost r) "www." = false ∧
          isIPAddress (effectiveHost r) = false))) := by
  rw [ServeHTTP_Code, ← location_isSome_iff]
  cases h.location r <;> simp

/-- C2: with `upgradeSSL = false` and `upgradeWWW = false` every request is
answered 404; no redirect target is computed and no `Location` header is
sent. -/
theorem C2_no_flags_not_found (r : Request) :
    ((NewRedirectHandler false false).ServeHTTP NewRecorder r).Code = 404 ∧
    (NewRedirectHandler false false).location r = none ∧
    ((NewRedirectHandler false false).ServeHTTP NewRecorder r).sent.Has "Location" = false := by
  have hl : (NewRedirectHandler false false).location r = none := by
    rw [location_eq]; simp [NewRedirectHandler]
  refine ⟨?_, hl, ?_⟩
  · rw [ServeHTTP_Code, hl]; rfl
  · unfold redirectHandler.ServeHTTP
    rw [hl]
    simp only [NotFound_sent]
    decide

/-- C3 (amended): for a request without `Host` header whose effective protocol
is not `https`, and whose host authority either cannot be split or splits
into a host and a non-empty port (the host containing a colon when the
authority is bracketed), the handler with `upgradeSSL` only answers 307 and
the target is the request URL with the scheme `https` and the host authority
of the request; path and query are those of the request. -/
theorem C3_https_upgrade_location (r : Request)
    (hhost : r.Header.Get "Host" = "") (hproto : effectiveProto r ≠ "https")
    (hauth : ∀ h p, SplitHostPort r.Host = .ok (h, p) →
      p ≠ "" ∧ (r.Host.data.head? = some '[' → ':' ∈ h.data)) :
    ((NewRedirectHandler true false).ServeHTTP NewRecorder r).Code = 307 ∧
    (NewRedirectHandler true false).location r =
      some { r.URL with Scheme := "https", Host := r.Host } ∧
    ((NewRedirectHandler true false).ServeHTTP NewRecorder r).sent.Get "Location" =
      http.hexEscapeNonASCII (URL.String { r.URL with Scheme := "https", Host := r.Host }) := by
  have hl : (NewRedirectHandler true false).location r =
      some { r.URL with Scheme := "https", Host := r.Host } := by
    rw [location_eq]
    simp only [NewRedirectHandler, hproto, ne_eq, not_false_eq_true, and_self, true_or,
      if_true, Bool.false_eq_true, false_and, if_false, copyURL_eq]
    have heh : effectiveHost r = (splitHost r).1 := by simp [effectiveHost, hhost]
    rw [heh]
    unfold requestPort splitHost
    cases hs : SplitHostPort r.Host with
    | error e => simp
    | ok hp =>
      obtain ⟨h, p⟩ := hp
      obtain ⟨hp1, hp2⟩ := hauth h p hs
      simp [hp1, JoinHostPort_SplitHostPort r.Host h p hs hp2]
  refine ⟨?_, hl, ?_⟩
  · rw [ServeHTTP_Code, hl]; rfl
  · unfold redirectHandler.ServeHTTP
    rw [hl]
    simp only []
    rw [Redirect_sent_Location, redirectURL_String r _ (by simp) getScheme_https]

/-- C3 at `http://example.com:8080`: the target is `https://example.com:8080`. -/
theorem C3_https_upgrade_location_witness :
    (newRedirectRequest "http" "example.com:8080" "" "" "").Header.Get "Host" = "" ∧
    effectiveProto (newRedirectRequest "http" "example.com:8080" "" "" "") ≠ "https" ∧
    SplitHostPort (newRedirectRequest "http" "example.com:8080" "" "" "").Host =
      .ok ("example.com", "8080") ∧
    (NewRedirectHandler true false).location (newRedirectRequest "http" "example.com:8080" "" "" "")
      = some (newRedirectRequest "https" "example.com:8080" "" "" "").URL ∧
    ((NewRedirectHandler true false).ServeHTTP NewRecorder
      (newRedirectRequest "http" "example.com:8080" "" "" "")).sent.Get "Location" =
      "https://example.com:8080" :=
  have hs : SplitHostPort (newRedirectRequest "http" "example.com:8080" "" "" "").Host =
      .ok ("example.com", "8080") := by decide
  have h := C3_https_upgrade_location (newRedirectRequest "http" "example.com:8080" "" "" "")
    (by decide) (by decide)
    (by
      intro h p hok
      rw [hs] at hok
      simp only [Except.ok.injEq, Prod.mk.injEq] at hok
      obtain ⟨rfl, rfl⟩ := hok
      decide)
  ⟨by decide, by decide, hs, h.2.1, by rw [h.2.2]; decide⟩

/-- C3 as stated fails for the server-side request `GET / HTTP/1.1` with
`Host: example.com:` (an authority with an empty port): there is no `Host`
entry in the header map and the effective protocol is not `https`, yet the host
authority of the target is `example.com`, not the `example.com:` of the
request. -/
theorem C3_counterexample :
    (serverRequest "example.com:" "/" "").Header.Get "Host" = "" ∧
    effectiveProto (serverRequest "example.com:" "/" "") ≠ "https" ∧
    ((NewRedirectHandler true false).ServeHTTP NewRecorder
      (serverRequest "example.com:" "/" "")).Code = 307 ∧
    ((NewRedirectHandler true false).location
      (serverRequest "example.com:" "/" "")).map (fun target => target.Host) =
      some "example.com" ∧
    (serverRequest "example.com:" "/" "").Host = "example.com:" ∧
    (NewRedirectHandler true false).location (serverRequest "example.com:" "/" "") ≠
      some { (serverRequest "example.com:" "/" "").URL with
        Scheme := "https", Host := (serverRequest "example.com:" "/" "").Host } := by
  decide

/-- C4 (amended): with `upgradeWWW`, a request whose effective host (the
`Host` header when non-empty, else the host of the split authority) neither
starts with `www.` nor is an IP literal is answered 307, and the host
authority of the target is `www.` followed by the effective host when the
authority of the request gave no port, and `net.JoinHostPort` of that host and
the port otherwise: `www.host:port`, or `[www.host]:port` when the effective
host contains a colon.  The port comes from the request authority alone. -/
theorem C4_www_upgrade_host (ssl : Bool) (r : Request)
    (hwww : HasPrefix (effectiveHost r) "www." = false)
    (hip : isIPAddress (effectiveHost r) = false) :
    effectiveHost r =
      (if r.Header.Get "Host" ≠ "" then r.Header.Get "Host" else (splitHost r).1) ∧
    requestPort r = (splitHost r).2 ∧
    ((NewRedirectHandler ssl true).ServeHTTP NewRecorder r).Code = 307 ∧
    ((NewRedirectHandler ssl true).location r).map (fun target => target.Host) =
      some (if requestPort r = "" then "www." ++ effectiveHost r
        else if ':' ∈ (effectiveHost r).data then
          "[www." ++ effectiveHost r ++ "]:" ++ requestPort r
        else "www." ++ effectiveHost r ++ ":" ++ requestPort r) := by
  have hl := location_eq (NewRedirectHandler ssl true) r
  simp only [NewRedirectHandler, hwww, hip, and_self, or_true, if_true, true_and] at hl
  simp only [NewRedirectHandler]
  refine ⟨rfl, rfl, ?_, ?_⟩
  · rw [ServeHTTP_Code, hl]; rfl
  · rw [hl]
    simp only [Option.map_some', Option.some.injEq]
    by_cases hp : requestPort r = ""
    · simp [hp]
    · rw [JoinHostPort_www]
      simp [hp]

/-- C4 at `http://localhost:8080` with `Host: example.com`: the target host
authority is `www.example.com:8080`. -/
theorem C4_www_upgrade_host_witness :
    HasPrefix (effectiveHost (newRedirectRequest "http" "localhost:8080" "" "example.com" ""))
      "www." = false ∧
    isIPAddress (effectiveHost (newRedirectRequest "http" "localhost:8080" "" "example.com" ""))
      = false ∧
    ((NewRedirectHandler false true).location
      (newRedirectRequest "http" "localhost:8080" "" "example.com" "")).map
        (fun target => target.Host) = some "www.example.com:8080" ∧
    ((NewRedirectHandler false true).ServeHTTP NewRecorder
      (newRedirectRequest "http" "localhost:8080" "" "example.com" "")).Code = 307 :=
  have h := C4_www_upgrade_host false
    (newRedirectRequest "http" "localhost:8080" "" "example.com" "") (by decide) (by decide)
  ⟨by decide, by decide, by rw [h.2.2.2]; decide, h.2.2.1⟩

/-- C4 as stated fails at `http://localhost:8080` with `Host: example.com:80`:
the effective host `example.com:80` neither starts with `www.` nor is an IP
literal and the port `8080` was extracted, yet the host authority of the
target is `[www.example.com:80]:8080`, not `www.example.com:80` followed by
`:8080`. -/
theorem C4_counterexample :
    effectiveHost (newRedirectRequest "http" "localhost:8080" "" "example.com:80" "") =
      "example.com:80" ∧
    HasPrefix (effectiveHost (newRedirectRequest "http" "localhost:8080" "" "example.com:80" ""))
      "www." = false ∧
    isIPAddress (effectiveHost (newRedirectRequest "http" "localhost:8080" "" "example.com:80" ""))
      = false ∧
    requestPort (newRedirectRequest "http" "localhost:8080" "" "example.com:80" "") = "8080" ∧
    ((NewRedirectHandler false true).location
      (newRedirectRequest "http" "localhost:8080" "" "example.com:80" "")).map
        (fun target => target.Host) = some "[www.example.com:80]:8080" ∧
    ((NewRedirectHandler false true).location
      (newRedirectRequest "http" "localhost:8080" "" "example.com:80" "")).map
        (fun target => target.Host) ≠
      some ("www." ++ effectiveHost
          (newRedirectRequest "http" "localhost:8080" "" "example.com:80" "") ++ ":" ++
        requestPort (newRedirectRequest "http" "localhost:8080" "" "example.com:80" "")) := by
  decide

/-- C5 fails on the code for an IPv6 literal without port.  The host of
`http://[::1]/` is the literal `::1`, which `net.ParseIP` accepts, yet the split
of the authority `[::1]` fails, the host keeps its brackets, `net.ParseIP`
rejects it and `upgradeWWW` prepends `www.`: with `upgradeSSL = false` the
answer is 307 with the `Location` `http://www.[::1]/`, not 404, and with
`upgradeSSL = true` the host of the target is `www.[::1]`.  This is the defect
shown for C18. -/
theorem C5_ip_literal_without_port :
    isIPAddress "::1" = true ∧
    (newRedirectRequest "http" "[::1]" "/" "" "").Host = "[::1]" ∧
    SplitHostPort "[::1]" = .error "missing port in address" ∧
    ((NewRedirectHandler false true).ServeHTTP NewRecorder
      (newRedirectRequest "http" "[::1]" "/" "" "")).Code = 307 ∧
    ((NewRedirectHandler false true).ServeHTTP NewRecorder
      (newRedirectRequest "http" "[::1]" "/" "" "")).sent.Get "Location" =
      "http://www.[::1]/" ∧
    ((NewRedirectHandler true true).location
      (newRedirectRequest "http" "[::1]" "/" "" "")).map (fun target => target.Host) =
      some "www.[::1]" ∧
    ((NewRedirectHandler true true).ServeHTTP NewRecorder
      (newRedirectRequest "http" "[::1]" "/" "" "")).sent.Get "Location" =
      "https://www.[::1]/" := by
  decide

/-- C6 (amended): whenever the redirect handler emits a redirect, the target
differs from the request URL in scheme and host authority only.  For a request
URL without opaque part and a target with a host whose scheme is empty or a
scheme for `url.Parse`, the `Location` is the scheme and `//`, the user
information and the escaped host, and then the path, query and fragment of the
request URL as `(*URL).String` writes them: the escaped path, preceded by a
slash when it is not empty and does not start with one, `?` and the raw query,
`#` and the escaped fragment, every byte from 0x80 on written `%xx`.  An empty
path stays empty. -/
theorem C6_path_query_fragment_preserved (h : redirectHandler) (r : Request) (target : URL)
    (hloc : h.location r = some target)
    (hro : r.URL.Opaque = "")
    (hhost : target.Host ≠ "")
    (hscheme : target.Scheme = "" ∨
      getScheme (target.Scheme.data ++ [':']) = .ok (target.Scheme.data, [])) :
    target = { r.URL with Scheme := target.Scheme, Host := target.Host } ∧
    (h.ServeHTTP NewRecorder r).Code = 307 ∧
    (h.ServeHTTP NewRecorder r).sent.Get "Location" =
      http.hexEscapeNonASCII
        ((if target.Scheme ≠ "" then target.Scheme ++ ":" else "") ++ "//" ++
          (match r.URL.User with
           | some ui => ui.String ++ "@"
           | none => "") ++
          escape target.Host encoding.encodeHost ++
          (if r.URL.EscapedPath ≠ "" ∧ r.URL.EscapedPath.data.head? ≠ some '/' then "/"
           else "") ++
          r.URL.EscapedPath ++
          (if r.URL.ForceQuery = true ∨ r.URL.RawQuery ≠ "" then "?" ++ r.URL.RawQuery
           else "") ++
          (if r.URL.Fragment ≠ "" then "#" ++ r.URL.EscapedFragment else "")) ∧
    (r.URL.Path = "" → r.URL.EscapedPath = "") := by
  have hfields := location_fields h r target hloc
  have hopq : target.Opaque = "" := by rw [hfields]; exact hro
  have hpath : target.EscapedPath = r.URL.EscapedPath := by rw [hfields]; rfl
  have hfrag : target.EscapedFragment = r.URL.EscapedFragment := by rw [hfields]; rfl
  have huser : target.User = r.URL.User := by rw [hfields]
  have hfq : target.ForceQuery = r.URL.ForceQuery := by rw [hfields]
  have hrq : target.RawQuery = r.URL.RawQuery := by rw [hfields]
  have hfr : target.Fragment = r.URL.Fragment := by rw [hfields]
  have hred : http.redirectURL r target.String = target.String := by
    by_cases hs : target.Scheme = ""
    · exact redirectURL_String_host r target hs hopq hhost
    · rcases hscheme with hs2 | hg
      · exact absurd hs2 hs
      · exact redirectURL_String r target hs hg
  refine ⟨hfields, by rw [ServeHTTP_Code, hloc]; rfl, ?_, EscapedPath_empty r.URL⟩
  unfold redirectHandler.ServeHTTP
  rw [hloc]
  simp only []
  rw [Redirect_sent_Location, hred, URL_String_authority target hopq hhost, hpath, hfrag,
    huser, hfq, hrq, hfr]

/-- C6 at `http://example.com/a%20b?q=1#top` with `upgradeSSL`: the `Location`
is `https://example.com/a%20b?q=1#top`. -/
theorem C6_path_query_fragment_preserved_witness :
    (NewRedirectHandler true false).location queryRequest =
      some { queryRequest.URL with Scheme := "https" } ∧
    queryRequest.URL.Opaque = "" ∧
    getScheme ("https".data ++ [':']) = .ok ("https".data, []) ∧
    ((NewRedirectHandler true false).ServeHTTP NewRecorder queryRequest).sent.Get "Location" =
      "https://example.com/a%20b?q=1#top" :=
  have h := C6_path_query_fragment_preserved (NewRedirectHandler true false) queryRequest
    { queryRequest.URL with Scheme := "https" } (by decide) rfl (by decide)
    (Or.inr (by decide))
  ⟨by decide, rfl, by decide, by rw [h.2.2.1]; decide⟩

/-- C6 as stated fails for the server-side request `GET * HTTP/1.1` with
`Host: example.com`, handled with `upgradeSSL` only: the path of the request
URL is `*`, and the `Location` is `https://example.com/*`, with the path
`/*`. -/
theorem C6_counterexample :
    (serverRequest "example.com" "*" "").URL.Path = "*" ∧
    ((NewRedirectHandler true false).ServeHTTP NewRecorder
      (serverRequest "example.com" "*" "")).Code = 307 ∧
    ((NewRedirectHandler true false).location
      (serverRequest "example.com" "*" "")).map (fun target => target.Path) = some "*" ∧
    ((NewRedirectHandler true false).ServeHTTP NewRecorder
      (serverRequest "example.com" "*" "")).sent.Get "Location" = "https://example.com/*" ∧
    ((NewRedirectHandler true false).ServeHTTP NewRecorder
      (serverRequest "example.com" "*" "")).sent.Get "Location" ≠ "https://example.com*" := by
  decide

/-- C7 (amended): for a request whose `Host` header, if any, contains no
square bracket, and for fixed flags: when the handler redirects to a target,
the request made from that target (its scheme as URL scheme, its host
authority as host authority of the request, same path and query, no headers)
is answered 404 by the same handler, with no further redirect. -/
theorem C7_redirect_idempotent (h : redirectHandler) (r : Request) (target : URL)
    (hhdr : '[' ∉ (r.Header.Get "Host").data ∧ ']' ∉ (r.Header.Get "Host").data)
    (hloc : h.location r = some target) :
    h.location (followRedirect r target) = none ∧
    (h.ServeHTTP NewRecorder (followRedirect r target)).Code = 404 := by
  have hnone : h.location (followRedirect r target) = none := by
    rw [location_eq] at hloc
    split at hloc
    · rename_i hcond
      simp only [Option.some.injEq] at hloc
      have hscheme : h.upgradeSSL = true → ToLower target.Scheme = "https" := by
        intro hssl
        rw [← hloc]
        by_cases hp : effectiveProto r = "https"
        · simp only [hp, ne_eq, not_true_eq_false, and_false, if_false]
          decide
        · simp only [hssl, hp, ne_eq, not_false_eq_true, and_self, if_true]
          decide
      have hhost : h.upgradeWWW = true →
          (HasPrefix (effectiveHost (followRedirect r target)) "www." = true ∨
            isIPAddress (effectiveHost (followRedirect r target)) = true) := by
        intro hwww
        rw [effectiveHost_followRedirect]
        have hTh := congrArg URL.Host hloc
        simp only at hTh
        have hT : (followRedirect r target).Host = target.Host := rfl
        rw [← hTh] at hT
        by_cases hw : h.upgradeWWW = true ∧ HasPrefix (effectiveHost r) "www." = false ∧
            isIPAddress (effectiveHost r) = false
        · simp only [hw, and_self, if_true] at hT
          refine splitHost_target r _ ("www." ++ effectiveHost r) ?_ ?_ hT
          · intro hp
            obtain ⟨e2, e3⟩ := effectiveHost_chars r hhdr hp
            simp [e2, e3]
          · left
            simp [HasPrefix]
        · simp only [hw, if_false] at hT
          refine splitHost_target r _ (effectiveHost r) (effectiveHost_chars r hhdr) ?_ hT
          simp only [hwww, true_and, not_and, Bool.not_eq_false] at hw
          by_cases hpre : HasPrefix (effectiveHost r) "www." = true
          · exact Or.inl hpre
          · exact Or.inr (hw (by simpa using hpre))
      rw [location_eq, effectiveProto_followRedirect]
      rw [if_neg]
      rintro (⟨hssl, hne⟩ | ⟨hwww, hpre, hip⟩)
      · exact hne (hscheme hssl)
      · rcases hhost hwww with h1 | h1
        · rw [h1] at hpre; exact absurd hpre (by simp)
        · rw [h1] at hip; exact absurd hip (by simp)
    · exact absurd hloc (by simp)
  exact ⟨hnone, by rw [ServeHTTP_Code, hnone]; rfl⟩

/-- C7 at `http://example.com:8080` with both flags: the target is
`https://www.example.com:8080`, and the request made from it gets 404. -/
theorem C7_redirect_idempotent_witness :
    (NewRedirectHandler true true).location (newRedirectRequest "http" "example.com:8080" "" "" "")
      = some (newRedirectRequest "https" "www.example.com:8080" "" "" "").URL ∧
    ((NewRedirectHandler true true).ServeHTTP NewRecorder
      (followRedirect (newRedirectRequest "http" "example.com:8080" "" "" "")
        (newRedirectRequest "https" "www.example.com:8080" "" "" "").URL)).Code = 404 :=
  ⟨by decide,
   (C7_redirect_idempotent (NewRedirectHandler true true)
      (newRedirectRequest "http" "example.com:8080" "" "" "")
      (newRedirectRequest "https" "www.example.com:8080" "" "" "").URL
      (by decide) (by decide)).2⟩

/-- C7 as stated fails at `http://localhost:8080` with `Host: [::1]` and
`upgradeWWW` only: the handler redirects to the host authority
`[www.[::1]]:8080`, and the request made from that target is redirected
again (307, to `www.[www.[::1]]:8080`) instead of getting 404. -/
theorem C7_counterexample :
    ((NewRedirectHandler false true).location
      (newRedirectRequest "http" "localhost:8080" "" "[::1]" "")).map (fun target => target.Host)
      = some "[www.[::1]]:8080" ∧
    ((NewRedirectHandler false true).location
      (newRedirectRequest "http" "localhost:8080" "" "[::1]" "")) =
      some (newRedirectRequest "http" "[www.[::1]]:8080" "" "" "").URL ∧
    ((NewRedirectHandler false true).ServeHTTP NewRecorder
      (followRedirect (newRedirectRequest "http" "localhost:8080" "" "[::1]" "")
        (newRedirectRequest "http" "[www.[::1]]:8080" "" "" "").URL)).Code = 307 ∧
    ((NewRedirectHandler false true).location
      (followRedirect (newRedirectRequest "http" "localhost:8080" "" "[::1]" "")
        (newRedirectRequest "http" "[www.[::1]]:8080" "" "" "").URL)).map
        (fun target => target.Host) = some "www.[www.[::1]]:8080" := by
  decide

/-- C8: with `upgradeSSL = true` the effective protocol is the lower-cased
`X-Forwarded-Proto` header when that is non-empty and the lower-cased URL
scheme otherwise.  A header that lower-cases to `https` (`HTTPS`, `hTtPs`)
leaves only the `www.` upgrade as a reason to redirect, also for an http URL;
every other non-empty header value gives a 307, also for an https URL; and
the scheme of every redirect target is `https`. -/
theorem C8_forwarded_proto_precedence (r : Request) (www : Bool) :
    effectiveProto r =
      (if r.Header.Get "X-Forwarded-Proto" = "" then ToLower r.URL.Scheme
       else ToLower (r.Header.Get "X-Forwarded-Proto")) ∧
    ((NewRedirectHandler true www).ServeHTTP NewRecorder r).Code =
      (if r.Header.Get "X-Forwarded-Proto" = "" then
        (if ToLower r.URL.Scheme = "https" then
          (if www = true ∧ HasPrefix (effectiveHost r) "www." = false ∧
              isIPAddress (effectiveHost r) = false then 307 else 404)
         else 307)
       else
        (if ToLower (r.Header.Get "X-Forwarded-Proto") = "https" then
          (if www = true ∧ HasPrefix (effectiveHost r) "www." = false ∧
              isIPAddress (effectiveHost r) = false then 307 else 404)
         else 307)) ∧
    ((NewRedirectHandler true www).location r).map (fun target => target.Scheme) =
      ((NewRedirectHandler true www).location r).map (fun _ => "https") ∧
    ToLower "HTTPS" = "https" ∧ ToLower "hTtPs" = "https" ∧ ToLower "https" = "https" := by
  have hp := effectiveProto_eq r
  have hl := location_eq (NewRedirectHandler true www) r
  simp only [NewRedirectHandler, true_and] at hl
  simp only [NewRedirectHandler]
  refine ⟨hp, ?_, ?_, by decide, by decide, by decide⟩
  · rw [ServeHTTP_Code, hl]
    by_cases h3 : r.Header.Get "X-Forwarded-Proto" = ""
    · simp only [h3, if_true] at hp ⊢
      rw [← hp]
      by_cases h1 : effectiveProto r = "https" <;>
      by_cases h2 : www = true ∧ HasPrefix (effectiveHost r) "www." = false ∧
          isIPAddress (effectiveHost r) = false <;> simp [h1, h2]
    · simp only [h3, if_false] at hp ⊢
      rw [← hp]
      by_cases h1 : effectiveProto r = "https" <;>
      by_cases h2 : www = true ∧ HasPrefix (effectiveHost r) "www." = false ∧
          isIPAddress (effectiveHost r) = false <;> simp [h1, h2]
  · rw [hl]
    by_cases h1 : effectiveProto r = "https" <;>
    by_cases h2 : www = true ∧ HasPrefix (effectiveHost r) "www." = false ∧
        isIPAddress (effectiveHost r) = false <;> simp [h1, h2]

/-- C9: for every prefix, request and pair of downstream handlers the status
middleware returns what exactly one call of one handler returns on the writer
it was given: the status handler when the trimmed request path equals the
trimmed prefix, the upstream handler otherwise.  For the prefix `_status` the
paths `/_status` and `/_status/` go to the status handler, `/_status/sub`,
`/_status2` and `/users` go upstream. -/
theorem C9_status_mux_dispatch (h : statusMux) (w : ResponseWriter) (r : Request) :
    h.ServeHTTP w r =
      some (if Trim r.URL.Path "/" = Trim h.path "/" then h.status w r else h.handler w r) ∧
    Trim "/_status" "/" = Trim "_status" "/" ∧
    Trim "/_status/" "/" = Trim "_status" "/" ∧
    Trim "/_status/sub" "/" ≠ Trim "_status" "/" ∧
    Trim "/_status2" "/" ≠ Trim "_status" "/" ∧
    Trim "/users" "/" ≠ Trim "_status" "/" := by
  refine ⟨?_, by decide, by decide, by decide, by decide, by decide⟩
  unfold statusMux.ServeHTTP
  simp only [ge_iff_le]
  by_cases hle : len (Trim h.path "/") ≤ len (Trim r.URL.Path "/")
  · have hs : slicePrefix (Trim r.URL.Path "/") (len (Trim h.path "/")) =
        some (sliceTo (Trim r.URL.Path "/") (len (Trim h.path "/"))) := by
      simp [slicePrefix, hle]
    have hiff : (sliceTo (Trim r.URL.Path "/") (len (Trim h.path "/")) = Trim h.path "/" ∧
        ¬ len (Trim r.URL.Path "/") > len (Trim h.path "/")) ↔
        Trim r.URL.Path "/" = Trim h.path "/" := by
      have := take_length_eq_iff (Trim r.URL.Path "/").data (Trim h.path "/").data hle
      simpa [sliceTo, len, String.ext_iff] using this
    simp only [hle, if_true, hs]
    by_cases heq : Trim r.URL.Path "/" = Trim h.path "/"
    · obtain ⟨h1, h2⟩ := hiff.mpr heq
      rw [heq] at h1 h2
      simp only [heq, h1, h2, if_true, if_false]
    · by_cases hhead : sliceTo (Trim r.URL.Path "/") (len (Trim h.path "/")) = Trim h.path "/"
      · have hgt : len (Trim r.URL.Path "/") > len (Trim h.path "/") := by
          by_contra hgt
          exact heq (hiff.mp ⟨hhead, hgt⟩)
        simp only [hhead, hgt, heq, if_true, if_false]
      · simp only [hhead, heq, if_false]
  · have hne : Trim r.URL.Path "/" ≠ Trim h.path "/" := by
      intro heq; rw [heq] at hle; exact hle (Nat.le_refl _)
    simp [hle, hne]

/-- C10: a status handler built with a nil checker answers every GET request
with code 200 and the JSON object of the fields `status` (`online`) and, for a
non-empty version, `version`; the object has no `errors` field. -/
theorem C10_nil_checker_online (version : String) (r : Request) (hget : r.Method = "GET") :
    ((NewStatusHandler none version).ServeHTTP NewRecorder r).Code = 200 ∧
    ((NewStatusHandler none version).ServeHTTP NewRecorder r).Body =
      json.encodeObject ([("status", json.Value.str "online")] ++
        (if version = "" then [] else [("version", json.Value.str version)])) ∧
    (response.fields { Status := Online, Version := version, Errors := [] }).lookup "status" =
      some (json.Value.str "online") ∧
    (response.fields { Status := Online, Version := version, Errors := [] }).lookup "errors" =
      none := by
  refine ⟨?_, ?_, ?_, ?_⟩
  · simp [statusHandler.ServeHTTP, NewStatusHandler, hget, response.Marshal, NewRecorder,
      ResponseWriter.WriteHeader, ResponseWriter.Write, http.StatusOK]
  · simp [statusHandler.ServeHTTP, NewStatusHandler, hget, response.Marshal, NewRecorder,
      ResponseWriter.WriteHeader, ResponseWriter.Write, response.fields, Online]
  · simp [response.fields, List.lookup, Online]
  · by_cases hv : version = "" <;> simp [response.fields, List.lookup, hv]

/-- C10 at the request `GET http://example.com/_status/` of the tests, without
version: code 200 and body `{"status":"online"}`. -/
theorem C10_nil_checker_online_witness :
    (newRedirectRequest "http" "example.com" "/_status/" "" "").Method = "GET" ∧
    ((NewStatusHandler none "").ServeHTTP NewRecorder
      (newRedirectRequest "http" "example.com" "/_status/" "" "")).Code = 200 ∧
    ((NewStatusHandler none "").ServeHTTP NewRecorder
      (newRedirectRequest "http" "example.com" "/_status/" "" "")).Body =
      "\x7b\"status\":\"online\"\x7d" :=
  have h := C10_nil_checker_online ""
    (newRedirectRequest "http" "example.com" "/_status/" "" "") rfl
  ⟨rfl, h.1, by rw [h.2.1]; decide⟩

/-- C11: for every checker and every GET request the response code of the
status handler is 200 when the status the checker returns is `online` and 503
for every other status, whatever the list of errors is. -/
theorem C11_status_code_online_or_503 (checker : Checker) (version : String) (r : Request)
    (hget : r.Method = "GET") :
    ((NewStatusHandler (some checker) version).ServeHTTP NewRecorder r).Code =
      (if (checker ()).1 = "online" then 200 else 503) ∧
    (((NewStatusHandler (some checker) version).ServeHTTP NewRecorder r).Code = 200 ↔
      (checker ()).1 = "online") := by
  have h := statusHandler_GET (NewStatusHandler (some checker) version) r hget
    (checker ()).1 (checker ()).2 rfl
  rw [h]
  simp only [Online]
  by_cases hs : (checker ()).1 = "online" <;> simp [hs]

/-- C11 at the test request with a checker that returns `error` and no errors:
the code is 503; with `online` and one error it is 200. -/
theorem C11_status_code_online_or_503_witness :
    (newStatusRequest "GET").Method = "GET" ∧
    ((NewStatusHandler (some (fun _ => (Error, []))) "1.2.0").ServeHTTP NewRecorder
      (newStatusRequest "GET")).Code = 503 ∧
    ((NewStatusHandler (some (fun _ => (Online, ["service degraded"]))) "").ServeHTTP NewRecorder
      (newStatusRequest "GET")).Code = 200 :=
  ⟨rfl,
   (C11_status_code_online_or_503 (fun _ => (Error, [])) "1.2.0" (newStatusRequest "GET") rfl).1,
   (C11_status_code_online_or_503 (fun _ => (Online, ["service degraded"])) ""
      (newStatusRequest "GET") rfl).1⟩

/-- C12: for every request whose method is not `GET`, every checker and every
version, the response code of the status handler is 405. -/
theorem C12_method_not_allowed_code (h : statusHandler) (r : Request)
    (hget : r.Method ≠ "GET") :
    (h.ServeHTTP NewRecorder r).Code = 405 := by
  have := statusHandler_not_GET h r hget _ _ rfl
  rw [this]

/-- C12 at the `POST` request of the tests, without checker. -/
theorem C12_method_not_allowed_code_witness :
    (newStatusRequest "POST").Method ≠ "GET" ∧
    ((NewStatusHandler none "").ServeHTTP NewRecorder (newStatusRequest "POST")).Code = 405 :=
  ⟨by decide, C12_method_not_allowed_code (NewStatusHandler none "") (newStatusRequest "POST")
    (by decide)⟩

/-- C13 fails on the code: `ServeHTTP` does not return after `http.Error`, so
for a `POST` request the checker is still consulted and its status is written
as JSON after the method-not-allowed message. -/
theorem C13_body_after_method_not_allowed :
    ((NewStatusHandler (some (fun _ => (Error, ["down"]))) "").ServeHTTP NewRecorder
      (newStatusRequest "POST")).Code = 405 ∧
    ((NewStatusHandler (some (fun _ => (Error, ["down"]))) "").ServeHTTP NewRecorder
      (newStatusRequest "POST")).Body =
      "Method Not Allowed\n\x7b\"status\":\"error\",\"errors\":[\"down\"]\x7d" ∧
    ((NewStatusHandler none "").ServeHTTP NewRecorder (newStatusRequest "POST")).Body =
      "Method Not Allowed\n\x7b\"status\":\"online\"\x7d" ∧
    ((NewStatusHandler none "").ServeHTTP NewRecorder (newStatusRequest "POST")).Body ≠
      "Method Not Allowed\n" := by
  decide

/-- C14: on a GET request the body is the JSON object of the fields of the
response in order: `status` always, `version` exactly when the configured
version is non-empty, `errors` exactly when the checker returned a non-empty
list, with the errors in the order the checker returned them. -/
theorem C14_status_json_fields (checker : Checker) (version : String) (r : Request)
    (hget : r.Method = "GET") :
    ((NewStatusHandler (some checker) version).ServeHTTP NewRecorder r).Body =
      json.encodeObject
        ([("status", json.Value.str (checker ()).1)] ++
          (if version = "" then [] else [("version", json.Value.str version)]) ++
          (if (checker ()).2 = [] then [] else [("errors", json.Value.arr (checker ()).2)])) ∧
    (response.fields
      { Status := (checker ()).1, Version := version, Errors := (checker ()).2 }).lookup "status" = some (json.Value.str (checker ()).1) ∧
    (response.fields
      { Status := (checker ()).1, Version := version, Errors := (checker ()).2 }).lookup "version" =
      (if version = "" then none else some (json.Value.str version)) ∧
    (response.fields
      { Status := (checker ()).1, Version := version, Errors := (checker ()).2 }).lookup "errors" =
      (if (checker ()).2 = [] then none else some (json.Value.arr (checker ()).2)) := by
  have h := statusHandler_GET (NewStatusHandler (some checker) version) r hget
    (checker ()).1 (checker ()).2 rfl
  rw [h]
  simp only [NewStatusHandler]
  refine ⟨?_, ?_, ?_, ?_⟩
  · by_cases he : (checker ()).2 = [] <;> simp [response.fields, he]
  · simp [response.fields, List.lookup]
  · by_cases hv : version = "" <;> by_cases he : (checker ()).2 = [] <;>
      simp [response.fields, List.lookup, hv, he]
  · by_cases hv : version = "" <;> by_cases he : (checker ()).2 = [] <;>
      simp [response.fields, List.lookup, hv, he]

/-- C14 at the test `error_version_errors`: the body is
`{"status":"error","version":"3.2.1","errors":["service unavailable"]}`. -/
theorem C14_status_json_fields_witness :
    (newStatusRequest "GET").Method = "GET" ∧
    ((NewStatusHandler (some (fun _ => (Error, ["service unavailable"]))) "3.2.1").ServeHTTP
      NewRecorder (newStatusRequest "GET")).Body =
      "\x7b\"status\":\"error\",\"version\":\"3.2.1\",\"errors\":[\"service unavailable\"]\x7d" :=
  ⟨rfl, by
    rw [(C14_status_json_fields (fun _ => (Error, ["service unavailable"])) "3.2.1"
      (newStatusRequest "GET") rfl).1]
    decide⟩

/-- C15 (amended): whenever the redirect handler emits a redirect, the code is
307 and a `Location` header is sent.  The scheme of the target is `https` when
`upgradeSSL` is set, and it is empty exactly when `upgradeSSL` is not set and
both the `X-Forwarded-Proto` header and the scheme of the request URL are
empty.  When the scheme is a scheme for `url.Parse` and the target has a host,
for a request URL without opaque part, user and fragment whose escaped path is
empty or starts with a slash, the `Location` has the form
`scheme://host[:port]path[?query]`, host and path escaped; with an empty scheme
it is the scheme-relative `//host[:port]path[?query]`.  When `upgradeSSL` is
set or the protocol header and the URL scheme are ASCII, the `Location` is what
`http.Redirect` makes of the rendering of the target, which it rewrites when
`url.Parse` reads it as a relative reference. -/
theorem C15_redirect_location_form (h : redirectHandler) (r : Request) (target : URL)
    (hloc : h.location r = some target) :
    (h.ServeHTTP NewRecorder r).Code = 307 ∧
    (h.ServeHTTP NewRecorder r).sent.Has "Location" = true ∧
    (h.upgradeSSL = true → target.Scheme = "https") ∧
    (target.Scheme = "" ↔
      (h.upgradeSSL = false ∧ r.Header.Get "X-Forwarded-Proto" = "" ∧ r.URL.Scheme = "")) ∧
    (getScheme (target.Scheme.data ++ [':']) = .ok (target.Scheme.data, []) →
      target.Host ≠ "" → r.URL.Opaque = "" → r.URL.User = none → r.URL.Fragment = "" →
      (r.URL.EscapedPath = "" ∨ r.URL.EscapedPath.data.head? = some '/') →
      (h.ServeHTTP NewRecorder r).sent.Get "Location" =
        http.hexEscapeNonASCII
          (target.Scheme ++ "://" ++ escape target.Host encoding.encodeHost ++
            r.URL.EscapedPath ++
            (if r.URL.ForceQuery = true ∨ r.URL.RawQuery ≠ "" then "?" ++ r.URL.RawQuery
             else ""))) ∧
    (target.Scheme = "" →
      target.Host ≠ "" → r.URL.Opaque = "" → r.URL.User = none → r.URL.Fragment = "" →
      (r.URL.EscapedPath = "" ∨ r.URL.EscapedPath.data.head? = some '/') →
      (h.ServeHTTP NewRecorder r).sent.Get "Location" =
        http.hexEscapeNonASCII
          ("//" ++ escape target.Host encoding.encodeHost ++ r.URL.EscapedPath ++
            (if r.URL.ForceQuery = true ∨ r.URL.RawQuery ≠ "" then "?" ++ r.URL.RawQuery
             else ""))) ∧
    (h.upgradeSSL = true ∨
      ((∀ c ∈ (r.Header.Get "X-Forwarded-Proto").data, c.toNat < 128) ∧
        (∀ c ∈ r.URL.Scheme.data, c.toNat < 128)) →
      (h.ServeHTTP NewRecorder r).sent.Get "Location" =
        http.hexEscapeNonASCII (http.redirectURL r target.String)) := by
  have hfields := location_fields h r target hloc
  have hscheme := location_Scheme h r target hloc
  have hserve : h.ServeHTTP NewRecorder r =
      http.Redirect NewRecorder r target.String http.StatusTemporaryRedirect := by
    unfold redirectHandler.ServeHTTP
    rw [hloc]
  have hlocation : (h.ServeHTTP NewRecorder r).sent.Get "Location" =
      http.hexEscapeNonASCII (http.redirectURL r target.String) := by
    rw [hserve, Redirect_sent_Location]
  have hpath : target.EscapedPath = r.URL.EscapedPath := by rw [hfields]; rfl
  have huser : target.User = r.URL.User := by rw [hfields]
  have hfq : target.ForceQuery = r.URL.ForceQuery := by rw [hfields]
  have hrq : target.RawQuery = r.URL.RawQuery := by rw [hfields]
  have hfr : target.Fragment = r.URL.Fragment := by rw [hfields]
  have hform : target.Host ≠ "" → r.URL.Opaque = "" → r.URL.User = none →
      r.URL.Fragment = "" →
      (r.URL.EscapedPath = "" ∨ r.URL.EscapedPath.data.head? = some '/') →
      target.String = (if target.Scheme ≠ "" then target.Scheme ++ ":" else "") ++ "//" ++
        escape target.Host encoding.encodeHost ++ r.URL.EscapedPath ++
        (if r.URL.ForceQuery = true ∨ r.URL.RawQuery ≠ "" then "?" ++ r.URL.RawQuery
         else "") := by
    intro hh ho hu hf hp
    have hopq : target.Opaque = "" := by rw [hfields]; exact ho
    rw [URL_String_authority target hopq hh, hpath, huser, hfq, hrq, hfr, hu, hf]
    rcases hp with hp | hp
    · simp [hp, String.ext_iff]
    · simp [hp, String.ext_iff]
  refine ⟨by rw [ServeHTTP_Code, hloc]; rfl, ?_, ?_, ?_, ?_, ?_, fun _ => hlocation⟩
  · rw [hserve, Redirect_NewRecorder]
    by_cases hm : r.Method = "GET" ∨ r.Method = "HEAD" <;>
      simp [hm, Header.Has, List.lookup]
  · intro hssl
    rw [hscheme]
    by_cases hp : effectiveProto r = "https" <;> simp [hssl, hp]
  · have hempty : effectiveProto r = "" ↔
        (r.Header.Get "X-Forwarded-Proto" = "" ∧ r.URL.Scheme = "") := by
      rw [effectiveProto_eq]
      by_cases h1 : r.Header.Get "X-Forwarded-Proto" = "" <;>
        simp [h1, ToLower_eq_empty]
    rw [hscheme]
    by_cases hssl : h.upgradeSSL = true
    · by_cases hp : effectiveProto r = "https" <;> simp [hssl, hp]
    · simp [hssl, hempty]
  · intro hg hh ho hu hf hp
    have hs : target.Scheme ≠ "" := by
      intro hcon
      rw [hcon] at hg
      exact absurd hg (by decide)
    have e : target.Scheme ++ ":" ++ "//" = target.Scheme ++ "://" := by
      rw [String.append_assoc]; rfl
    rw [hlocation, redirectURL_String r target hs hg, hform hh ho hu hf hp]
    simp only [hs, ne_eq, not_false_eq_true, if_true, e]
  · intro hs hh ho hu hf hp
    have hopq : target.Opaque = "" := by rw [hfields]; exact ho
    rw [hlocation, redirectURL_String_host r target hs hopq hh, hform hh ho hu hf hp]
    simp [hs]

/-- C15 at `http://example.com:8080/a%20b` with `upgradeSSL`: the `Location` is
`https://example.com:8080/a%20b`. -/
theorem C15_redirect_location_form_witness :
    (NewRedirectHandler true false).location
      (newRedirectRequest "http" "example.com:8080" "/a b" "" "") =
      some (newRedirectRequest "https" "example.com:8080" "/a b" "" "").URL ∧
    ((NewRedirectHandler true false).ServeHTTP NewRecorder
      (newRedirectRequest "http" "example.com:8080" "/a b" "" "")).Code = 307 ∧
    ((NewRedirectHandler true false).ServeHTTP NewRecorder
      (newRedirectRequest "http" "example.com:8080" "/a b" "" "")).sent.Get "Location" =
      "https://example.com:8080/a%20b" :=
  have h := C15_redirect_location_form (NewRedirectHandler true false)
    (newRedirectRequest "http" "example.com:8080" "/a b" "" "")
    (newRedirectRequest "https" "example.com:8080" "/a b" "" "").URL (by decide)
  ⟨by decide, h.1,
   by rw [h.2.2.2.2.1 (by decide) (by decide) rfl rfl rfl (by decide)]; decide⟩

/-- C15 as stated fails for the server-side request `GET /path HTTP/1.1` with
`Host: example.com` and no `X-Forwarded-Proto`, handled with `upgradeWWW` only:
the handler redirects, but the scheme of the target is empty and the
`Location` is the scheme-relative `//www.example.com/path`. -/
theorem C15_counterexample :
    ((NewRedirectHandler false true).ServeHTTP NewRecorder
      (serverRequest "example.com" "/path" "")).Code = 307 ∧
    ((NewRedirectHandler false true).location
      (serverRequest "example.com" "/path" "")).map (fun target => target.Scheme) = some "" ∧
    ((NewRedirectHandler false true).ServeHTTP NewRecorder
      (serverRequest "example.com" "/path" "")).sent.Get "Location" =
      "//www.example.com/path" := by
  decide

/-- C16 (amended): for every request the redirect handler writes one
response.  When a redirect applies it is the 307 of `http.Redirect` for some
`url`: the header `Location` with that `url`, bytes from 0x80 on written
`%xx`, a `Content-Type` header for GET and HEAD, for GET the short HTML body
with the link to `url` and for every other method an empty body; when
`upgradeSSL` is set or the protocol header and the URL scheme are ASCII, `url`
is what `http.Redirect` makes of the rendering of the target.  Otherwise the
response is the 404 of `http.NotFound`: the headers `Content-Type` and
`X-Content-Type-Options` and the body `404 page not found`. -/
theorem C16_one_response (h : redirectHandler) (r : Request) :
    (h.ServeHTTP NewRecorder r).wroteHeader = true ∧
    (match h.location r with
     | some target =>
       (h.ServeHTTP NewRecorder r).Code = 307 ∧
       ∃ url : String,
         (h.upgradeSSL = true ∨
           ((∀ c ∈ (r.Header.Get "X-Forwarded-Proto").data, c.toNat < 128) ∧
             (∀ c ∈ r.URL.Scheme.data, c.toNat < 128)) →
           url = http.redirectURL r target.String) ∧
         (h.ServeHTTP NewRecorder r).sent =
           (if r.Method = "GET" ∨ r.Method = "HEAD" then
              [("Content-Type", ["text/html; charset=utf-8"]),
                ("Location", [http.hexEscapeNonASCII url])]
            else [("Location", [http.hexEscapeNonASCII url])]) ∧
         (h.ServeHTTP NewRecorder r).Body =
           (if r.Method = "GET" then
              "<a href=\"" ++ http.htmlEscape url ++ "\">Temporary Redirect</a>.\n\n"
            else "")
     | none =>
       (h.ServeHTTP NewRecorder r).Code = 404 ∧
       (h.ServeHTTP NewRecorder r).sent =
         [("X-Content-Type-Options", ["nosniff"]),
           ("Content-Type", ["text/plain; charset=utf-8"])] ∧
       (h.ServeHTTP NewRecorder r).Body = "404 page not found\n") := by
  unfold redirectHandler.ServeHTTP
  cases h.location r with
  | none => simp [NotFound_NewRecorder]
  | some target =>
    dsimp only
    rw [Redirect_NewRecorder]
    refine ⟨rfl, rfl, http.redirectURL r target.String, fun _ => rfl, rfl, ?_⟩
    by_cases hg : r.Method = "GET"
    · simp [hg, http.StatusText, http.StatusTemporaryRedirect, String.ext_iff]
    · simp [hg]

/-- C16 as stated fails for `GET https://example.com` with `upgradeSSL` only
(answered 404 with a body and two headers) and for `GET http://example.com`
(answered 307 with an HTML body). -/
theorem C16_counterexample :
    ((NewRedirectHandler true false).ServeHTTP NewRecorder
      (newRedirectRequest "https" "example.com" "" "" "")).Code = 404 ∧
    ((NewRedirectHandler true false).ServeHTTP NewRecorder
      (newRedirectRequest "https" "example.com" "" "" "")).Body = "404 page not found\n" ∧
    ((NewRedirectHandler true false).ServeHTTP NewRecorder
      (newRedirectRequest "https" "example.com" "" "" "")).Body ≠ "" ∧
    ((NewRedirectHandler true false).ServeHTTP NewRecorder
      (newRedirectRequest "https" "example.com" "" "" "")).sent =
      [("X-Content-Type-Options", ["nosniff"]), ("Content-Type", ["text/plain; charset=utf-8"])] ∧
    ((NewRedirectHandler true false).ServeHTTP NewRecorder
      (newRedirectRequest "http" "example.com" "" "" "")).Code = 307 ∧
    ((NewRedirectHandler true false).ServeHTTP NewRecorder
      (newRedirectRequest "http" "example.com" "" "" "")).Body =
      "<a href=\"https://example.com\">Temporary Redirect</a>.\n\n" := by
  decide

/-- C17: when `net.SplitHostPort` rejects the host authority of the request
(as it does for every authority without colon), the handler takes the whole
authority as host and the empty string as port, still answers 307 or 404, and
the host authority of a redirect target is the effective host, with `www.` in
front when that upgrade applies, with no port appended. -/
theorem C17_unsplittable_authority (h : redirectHandler) (r : Request) (e : String)
    (herr : SplitHostPort r.Host = .error e) :
    splitHost r = (r.Host, "") ∧
    requestPort r = "" ∧
    effectiveHost r = (if r.Header.Get "Host" ≠ "" then r.Header.Get "Host" else r.Host) ∧
    ((h.ServeHTTP NewRecorder r).Code = 307 ∨ (h.ServeHTTP NewRecorder r).Code = 404) ∧
    (h.location r).map (fun target => target.Host) =
      (h.location r).map (fun _ =>
        if h.upgradeWWW = true ∧ HasPrefix (effectiveHost r) "www." = false ∧
            isIPAddress (effectiveHost r) = false then "www." ++ effectiveHost r
        else effectiveHost r) ∧
    (∀ x : String, ':' ∉ x.data → SplitHostPort x = .error "missing port in address") := by
  have hsplit : splitHost r = (r.Host, "") := by simp [splitHost, herr]
  have hport : requestPort r = "" := by simp [requestPort, hsplit]
  refine ⟨hsplit, hport, ?_, ?_, ?_, SplitHostPort_no_colon⟩
  · simp [effectiveHost, hsplit]
  · rw [ServeHTTP_Code]
    cases h.location r <;> simp
  · rw [location_eq]
    split <;> simp [hport]

/-- C17 at `http://example.com` with both flags: the authority has no port,
the target host authority is `www.example.com`. -/
theorem C17_unsplittable_authority_witness :
    SplitHostPort (newRedirectRequest "http" "example.com" "" "" "").Host =
      .error "missing port in address" ∧
    requestPort (newRedirectRequest "http" "example.com" "" "" "") = "" ∧
    ((NewRedirectHandler true true).location
      (newRedirectRequest "http" "example.com" "" "" "")).map (fun target => target.Host) =
      some "www.example.com" :=
  have h := C17_unsplittable_authority (NewRedirectHandler true true)
    (newRedirectRequest "http" "example.com" "" "" "") "missing port in address" (by decide)
  ⟨by decide, h.2.1, by rw [h.2.2.2.2.1]; decide⟩

/-- C18 fails on the code for a bracketed IPv6 literal without port: for
`http://[::1]` the split fails, the host stays `[::1]`, which `net.ParseIP`
rejects, and the handler with `upgradeWWW` only redirects to `www.[::1]`.  With
a port (`[::1]:8080`) the literal is recognised and the answer is 404, and
`127.0.0` is redirected to `www.127.0.0`. -/
theorem C18_bracketed_ipv6_without_port :
    isIPAddress "::1" = true ∧ isIPAddress "[::1]" = false ∧
    effectiveHost (newRedirectRequest "http" "[::1]" "" "" "") = "[::1]" ∧
    ((NewRedirectHandler false true).ServeHTTP NewRecorder
      (newRedirectRequest "http" "[::1]" "" "" "")).Code = 307 ∧
    ((NewRedirectHandler false true).location
      (newRedirectRequest "http" "[::1]" "" "" "")).map (fun target => target.Host) =
      some "www.[::1]" ∧
    effectiveHost (newRedirectRequest "http" "[::1]:8080" "" "" "") = "::1" ∧
    ((NewRedirectHandler false true).ServeHTTP NewRecorder
      (newRedirectRequest "http" "[::1]:8080" "" "" "")).Code = 404 ∧
    isIPAddress "127.0.0" = false ∧
    ((NewRedirectHandler false true).location
      (newRedirectRequest "http" "127.0.0" "" "" "")).map (fun target => target.Host) =
      some "www.127.0.0" := by
  decide

/-- C19: for every prefix and every request path the slice `path[:lPrefix]` is
taken only when `lPath >= lPrefix`, so it is within bounds: the middleware
never panics and returns what one of its two downstream handlers returns. -/
theorem C19_slice_in_bounds (h : statusMux) (w : ResponseWriter) (r : Request) :
    (¬ len (Trim h.path "/") ≤ len (Trim r.URL.Path "/") ∨
      slicePrefix (Trim r.URL.Path "/") (len (Trim h.path "/")) =
        some (sliceTo (Trim r.URL.Path "/") (len (Trim h.path "/")))) ∧
    h.ServeHTTP w r ≠ none ∧
    (h.ServeHTTP w r = some (h.status w r) ∨ h.ServeHTTP w r = some (h.handler w r)) := by
  have hs : ¬ len (Trim h.path "/") ≤ len (Trim r.URL.Path "/") ∨
      slicePrefix (Trim r.URL.Path "/") (len (Trim h.path "/")) =
        some (sliceTo (Trim r.URL.Path "/") (len (Trim h.path "/"))) := by
    by_cases hle : len (Trim h.path "/") ≤ len (Trim r.URL.Path "/")
    · right; simp [slicePrefix, hle]
    · left; exact hle
  have hor : h.ServeHTTP w r = some (h.status w r) ∨ h.ServeHTTP w r = some (h.handler w r) := by
    unfold statusMux.ServeHTTP
    simp only [ge_iff_le]
    rcases hs with hle | hsl
    · simp [hle]
    · by_cases hle : len (Trim h.path "/") ≤ len (Trim r.URL.Path "/")
      · simp only [hle, if_true, hsl]
        split
        · split
          · right; rfl
          · left; rfl
        · right; rfl
      · simp [hle]
  refine ⟨hs, ?_, hor⟩
  rcases hor with h1 | h1 <;> simp [h1]

end Redirector
